import Mathlib

/-!
Verification of the 3D-LUT tile-pattern tool (pattern generator, pixel-filter
engine, geometry detector, LUT sampler).

The TypeScript source is embedded shallowly:
* machine numbers that stay integral are `Nat`;
* JavaScript floating-point expressions whose values are exactly representable
  (the sampler's `region / s` always has denominator 1..8, a power-of-two-free
  exact quotient in binary floating point for all realistic sizes, and
  `Math.round`'s argument in `v` is a correctly rounded quotient far from any
  half-integer for all N below 2^40) are modelled with `ℚ`;
* `Math.round` is "round half toward positive infinity", i.e. `⌊x + 1/2⌋`;
* the DOM canvas is a function from pixel coordinates to an RGB byte triple;
* thrown exceptions are `Except` errors; the cooperative cancellation flag is
  an explicit `Bool` parameter (the source polls a shared mutable flag, which
  is constant during a single synchronous chunk of the loop);
* the user-supplied pixel-filter script is an abstract function returning the
  post-execution values of the script variables `R`, `G`, `B` (where `none`
  stands for a non-finite result, NaN or Infinity) or throwing a message.
-/

namespace LiveTools

/-- Source: `type Layout = "tall" | "wide"`. -/
inductive Layout where
  | tall
  | wide
deriving DecidableEq, Repr

/-- The record returned by `computeDims`. -/
structure Dims where
  tilesW : ℕ
  tilesH : ℕ
  width : ℕ
  height : ℕ
deriving DecidableEq, Repr

/-- Source: `computeDims(N, M, layout)` — the tile grid is N²×N tiles for
`wide`, N×N² for `tall`, and each tile is M×M pixels. -/
def computeDims (N M : ℕ) (layout : Layout) : Dims :=
  let tilesW := if layout = .wide then N * N else N
  let tilesH := if layout = .wide then N else N * N
  { tilesW := tilesW, tilesH := tilesH, width := tilesW * M, height := tilesH * M }

/-- JavaScript `Math.round`: round half toward positive infinity. -/
def jsRound (q : ℚ) : ℤ := ⌊q + 1 / 2⌋

/-- Source: `v(i, N)` — `if (N <= 1) return 0; return Math.round((i * 255) / (N - 1));`.
The quotient is computed in ℚ; the value is a byte, hence `toNat`. -/
def v (i N : ℕ) : ℕ :=
  if N ≤ 1 then 0 else (jsRound ((i * 255 : ℚ) / ((N : ℚ) - 1))).toNat

/-- Source: `tileIndexToRGB(t, N)` — `r = t % N`, `g = floor(t/N) % N`,
`b = floor(t / (N*N))`. -/
def tileIndexToRGB (t N : ℕ) : ℕ × ℕ × ℕ :=
  (t % N, t / N % N, t / (N * N))

/-- Source: `tileCoords(t, N, layout)`. -/
def tileCoords (t N : ℕ) (layout : Layout) : ℕ × ℕ :=
  let rgb := tileIndexToRGB t N
  if layout = .wide then (rgb.1 + rgb.2.1 * N, rgb.2.2)
  else (rgb.1, rgb.2.1 + rgb.2.2 * N)

/-- The geometry triple recovered by `detectGeometry`. -/
structure Geometry where
  N : ℕ
  M : ℕ
  layout : Layout
deriving DecidableEq, Repr

/-- The `wide` hypothesis of `detectGeometry`: `W = N²·M`, `H = N·M`, so
`N = W/H`; every divisibility and range condition of the source, and the
final exact reconstruction check. -/
def wideHyp (width height : ℕ) : Option Geometry :=
  if 0 < height ∧ width % height = 0 then
    let N := width / height
    if 2 ≤ N ∧ N ≤ 256 then
      if height % N = 0 then
        let M := height / N
        if 1 ≤ M then
          if N * N * M = width ∧ N * M = height then some ⟨N, M, .wide⟩
          else none
        else none
      else none
    else none
  else none

/-- The `tall` hypothesis of `detectGeometry`: symmetric, `N = H/W`. -/
def tallHyp (width height : ℕ) : Option Geometry :=
  if 0 < width ∧ height % width = 0 then
    let N := height / width
    if 2 ≤ N ∧ N ≤ 256 then
      if width % N = 0 then
        let M := width / N
        if 1 ≤ M then
          if N * M = width ∧ N * N * M = height then some ⟨N, M, .tall⟩
          else none
        else none
      else none
    else none
  else none

/-- Source: `detectGeometry(width, height)` — try `wide` first, then `tall`;
`none` models the `{ error }` return. -/
def detectGeometry (width height : ℕ) : Option Geometry :=
  match wideHyp width height with
  | some g => some g
  | none => tallHyp width height

/-- The same detector with the two hypotheses tried in the opposite order;
used to state that the trial order does not matter. -/
def detectGeometryTallFirst (width height : ℕ) : Option Geometry :=
  match tallHyp width height with
  | some g => some g
  | none => wideHyp width height

/-- The inverse enumeration `t = r + g·N + b·N²` named by the spec. -/
def rgbToTileIndex (r g b N : ℕ) : ℕ := r + g * N + b * (N * N)

/-- A DOM canvas, as a function from pixel coordinates to an RGB byte triple.
A fresh canvas is transparent black, i.e. `(0, 0, 0)` per channel. -/
abbrev Canvas := ℕ → ℕ → ℕ × ℕ × ℕ

/-- `ctx.fillRect(x0, y0, w, h)` with a solid fill colour. -/
def fillRect (c : Canvas) (x0 y0 w h : ℕ) (col : ℕ × ℕ × ℕ) : Canvas :=
  fun x y => if x0 ≤ x ∧ x < x0 + w ∧ y0 ≤ y ∧ y < y0 + h then col else c x y

/-- The quantized colour of tile `t`: `rgb(v(r,N), v(g,N), v(b,N))`. -/
def quantColor (t N : ℕ) : ℕ × ℕ × ℕ :=
  let rgb := tileIndexToRGB t N
  (v rgb.1 N, v rgb.2.1 N, v rgb.2.2 N)

/-- One iteration of the Step-1 loop body: fill the M×M block of tile `t`. -/
def drawTile (N M : ℕ) (layout : Layout) (c : Canvas) (t : ℕ) : Canvas :=
  let tc := tileCoords t N layout
  fillRect c (tc.1 * M) (tc.2 * M) M M (quantColor t N)

/-- The whole Step-1 drawing loop (`for t = 0 .. N³−1`) on a fresh canvas,
without the progress/yield bookkeeping, which does not touch the canvas. -/
def drawTiles (N M : ℕ) (layout : Layout) : Canvas :=
  (List.range (N * N * N)).foldl (drawTile N M layout) (fun _ _ => (0, 0, 0))

/-- Errors thrown by `generateStep1Pattern`. -/
inductive GenError where
  | dimensionLimitExceeded (width height suggestedM : ℕ)
  | cancelled
deriving DecidableEq, Repr

/-- Source: `generateStep1Pattern` — the dimension-limit precondition (the
thrown message reports the computed width and height and `Math.max(1, ⌊maxDim/N²⌋)`
as the suggested M), then the tile loop, which checks the cancellation flag on
every iteration and draws one tile; PNG encoding is lossless, so the produced
blob is modelled by the canvas itself. -/
def generateStep1Pattern (N M : ℕ) (layout : Layout) (maxDim : ℕ)
    (cancelled : Bool) : Except GenError Canvas :=
  let d := computeDims N M layout
  if maxDim < d.width ∨ maxDim < d.height then
    .error (.dimensionLimitExceeded d.width d.height (max 1 (maxDim / (N * N))))
  else
    (List.range (N * N * N)).foldlM
      (fun c t => if cancelled then .error .cancelled
                  else .ok (drawTile N M layout c t))
      (fun _ _ => (0, 0, 0))

/-- The compiled per-pixel callable `(R,G,B,X,Y,W,H) → packed RGB`, which may
throw (modelled by `Except String`). -/
abbrev FilterFn := ℕ → ℕ → ℕ → ℕ → ℕ → ℕ → ℕ → Except String ℕ

/-- A user script, abstracted: on the given inputs it either throws or yields
the final values of the script variables `R`, `G`, `B` after the wrapped IIFE
returns (`none` models a non-finite value, NaN or Infinity). -/
abbrev ScriptFn :=
  ℕ → ℕ → ℕ → ℕ → ℕ → ℕ → ℕ → Except String (Option ℚ × Option ℚ × Option ℚ)

/-- `Math.max(0, Math.min(255, Math.round(q)))`, as a byte. -/
def clampRound (q : ℚ) : ℕ := (max 0 (min 255 (jsRound q))).toNat

/-- The per-channel finalisation of the compiled wrapper: a non-finite channel
value is replaced by the saved pre-filter value, then rounded and clamped. -/
def finalizeChannel (pre : ℕ) (out : Option ℚ) : ℕ := clampRound (out.getD (pre : ℚ))

/-- `(R << 16) | (G << 8) | B` for byte channels (the bit ranges are disjoint,
so the bitwise or is addition). -/
def packRGB (r g b : ℕ) : ℕ := r * 65536 + g * 256 + b

/-- Source: `compilePixelFilter` — wrap the script: save `_R,_G,_B`, run the
script body, per channel fall back to the saved value when non-finite, round,
clamp, and return the packed RGB value. -/
def compilePixelFilter (script : ScriptFn) : FilterFn := fun R G B X Y W H =>
  match script R G B X Y W H with
  | .error e => .error e
  | .ok outs =>
      .ok (packRGB (finalizeChannel R outs.1) (finalizeChannel G outs.2.1)
            (finalizeChannel B outs.2.2))

/-- Errors thrown by `applyStep2Filter`. -/
inductive FilterError where
  | cancelled
  | filterRuntime (x y : ℕ) (msg : String)
deriving DecidableEq, Repr

/-- JavaScript `(p >> 16) & 255` for a nonnegative number `p` (JS bitwise
operators act on the value modulo 2³²). -/
def unpackR (p : ℕ) : ℕ := p % 2 ^ 32 / 65536 % 256

/-- JavaScript `(p >> 8) & 255` for a nonnegative number `p`. -/
def unpackG (p : ℕ) : ℕ := p % 2 ^ 32 / 256 % 256

/-- JavaScript `p & 255` for a nonnegative number `p`. -/
def unpackB (p : ℕ) : ℕ := p % 2 ^ 32 % 256

/-- Write the three colour channels of the pixel whose base index is `i`
(the alpha byte at `i + 3` is untouched). -/
def write3 (buf : ℕ → ℕ) (i r g b : ℕ) : ℕ → ℕ := fun j =>
  if j = i then r else if j = i + 1 then g else if j = i + 2 then b else buf j

/-- The body of the inner Step-2 loop at pixel `(x, y)`: read the channels,
call the filter (wrapping a throw into the pixel-identifying error), write the
unpacked channels back, count the pixel, and poll the cancellation flag after
every 150000th pixel. The state is the buffer with the processed counter. -/
def filterStep (fn : FilterFn) (W H : ℕ) (cancelled : Bool) (y : ℕ)
    (st : (ℕ → ℕ) × ℕ) (x : ℕ) : Except FilterError ((ℕ → ℕ) × ℕ) :=
  let i := 4 * (y * W + x)
  match fn (st.1 i) (st.1 (i + 1)) (st.1 (i + 2)) x y W H with
  | .error msg => .error (.filterRuntime x y msg)
  | .ok packed =>
      let buf := write3 st.1 i (unpackR packed) (unpackG packed) (unpackB packed)
      let processed := st.2 + 1
      if processed % 150000 = 0 ∧ cancelled then .error .cancelled
      else .ok (buf, processed)

/-- Source: `applyStep2Filter` — row-major loop, checking the cancellation
flag at the start of every row and applying `filterStep` to every pixel. -/
def applyStep2Filter (buf : ℕ → ℕ) (W H : ℕ) (fn : FilterFn)
    (cancelled : Bool) : Except FilterError (ℕ → ℕ) :=
  ((List.range H).foldlM
      (fun st y =>
        if cancelled then .error .cancelled
        else (List.range W).foldlM (filterStep fn W H cancelled y) st)
      (buf, 0)).map Prod.fst

/-- The inset margin of `sampleTileColor`: `max(1, ⌊M·0.2⌋)`, reduced to
`⌊M/4⌋` when twice that margin would consume the whole tile (`⌊M·0.2⌋` equals
`⌊M/5⌋` exactly for every realistic M). -/
def sampleMargin (M : ℕ) : ℕ :=
  if M ≤ 2 * max 1 (M / 5) then M / 4 else max 1 (M / 5)

/-- The inset region size `M − 2·margin` (nonnegative in the source, so the
truncated subtraction agrees). -/
def sampleRegion (M : ℕ) : ℕ := M - 2 * sampleMargin M

/-- Sample points per axis: `max(1, min(8, region))`. -/
def sampleS (M : ℕ) : ℕ := max 1 (min 8 (sampleRegion M))

/-- The `k`-th sample coordinate on one axis: the midpoint of the `k`-th of
`s` equal steps of the inset region starting at `tile·M + margin`, floored
and clamped into `[0, dim−1]`. The tile coordinate is a JS number and may be
negative, hence `ℤ`. -/
def sampleCoord (dim : ℕ) (tile : ℤ) (M k : ℕ) : ℤ :=
  min ((dim : ℤ) - 1)
    (max 0
      ⌊((tile * M + sampleMargin M : ℤ) : ℚ) +
          ((k : ℚ) + 1 / 2) * ((sampleRegion M : ℚ) / sampleS M)⌋)

/-- Source: `sampleTileColor` — average an s×s grid of samples inside the
inset region of the tile. `data` is the flat RGBA byte array (out-of-array
reads return 0; the claims only ever perform in-range reads). -/
def sampleTileColor (data : ℤ → ℕ) (imgW imgH : ℕ) (tileX tileY : ℤ)
    (M : ℕ) : ℚ × ℚ × ℚ :=
  let s := sampleS M
  let count : ℚ := (s * s : ℕ)
  let idx : ℕ → ℕ → ℤ := fun xx yy =>
    (sampleCoord imgH tileY M yy * imgW + sampleCoord imgW tileX M xx) * 4
  let sumR : ℚ := ∑ yy ∈ Finset.range s, ∑ xx ∈ Finset.range s, (data (idx xx yy) : ℚ)
  let sumG : ℚ := ∑ yy ∈ Finset.range s, ∑ xx ∈ Finset.range s, (data (idx xx yy + 1) : ℚ)
  let sumB : ℚ := ∑ yy ∈ Finset.range s, ∑ xx ∈ Finset.range s, (data (idx xx yy + 2) : ℚ)
  (sumR / count, sumG / count, sumB / count)

/-- Source `clampByte(n, fallback)` on a rational. A rational is always
finite, so the non-finite fallback branch is unreachable here (the sampler's
averages always have a positive sample count). -/
def clampByte (q : ℚ) (fallback : ℕ) : ℕ := clampRound q

/-- One `.cube` data line for lattice cell `(r,g,b)`: locate the tile with the
same placement formula as Step 1, sample it, and scale each channel into
[0,1] by dividing by 255. -/
def cubeEntry (data : ℤ → ℕ) (imgW imgH M N : ℕ) (layout : Layout)
    (r g b : ℕ) : ℚ × ℚ × ℚ :=
  let xTile : ℕ := if layout = .wide then r + g * N else r
  let yTile : ℕ := if layout = .wide then b else g + b * N
  let c := sampleTileColor data imgW imgH xTile yTile M
  ((clampByte c.1 0 : ℚ) / 255, (clampByte c.2.1 0 : ℚ) / 255,
    (clampByte c.2.2 0 : ℚ) / 255)

/-- Errors thrown by `generateCubeLut`. -/
inductive CubeError where
  | cancelled
deriving DecidableEq, Repr

/-- Source: `generateCubeLut` — the data lines are produced by the b-outer /
g-middle / r-inner loop (R varies fastest), checking the cancellation flag
before every cell. The result models the ordered list of numeric data lines
(the fixed text header and the 6-decimal formatting are not modelled). -/
def generateCubeLut (data : ℤ → ℕ) (imgW imgH N M : ℕ) (layout : Layout)
    (cancelled : Bool) : Except CubeError (List (ℚ × ℚ × ℚ)) :=
  (List.range N).foldlM
    (fun acc b =>
      (List.range N).foldlM
        (fun acc g =>
          (List.range N).foldlM
            (fun acc r =>
              if cancelled then .error .cancelled
              else .ok (acc ++ [cubeEntry data imgW imgH M N layout r g b]))
            acc)
        acc)
    []

/-- The list of `.cube` data lines as a pure list: the value of the loop when
the cancellation flag is never set. -/
def cubeLines (data : ℤ → ℕ) (imgW imgH N M : ℕ) (layout : Layout) :
    List (ℚ × ℚ × ℚ) :=
  (List.range N).flatMap fun b =>
    (List.range N).flatMap fun g =>
      (List.range N).map fun r => cubeEntry data imgW imgH M N layout r g b

/-- View a canvas as the flat RGBA byte array that `getImageData` produces for
an image of width `W` (every drawn pixel is opaque, alpha 255). -/
def canvasData (c : Canvas) (W : ℕ) : ℤ → ℕ := fun i =>
  if i < 0 then 0
  else
    let n := i.toNat
    let p := n / 4
    let col := c (p % W) (p / W)
    match n % 4 with
    | 0 => col.1
    | 1 => col.2.1
    | 2 => col.2.2
    | _ => 255

/-- View a byte list as a flat array (out-of-range reads give 0). -/
def listData (l : List ℕ) : ℤ → ℕ := fun i =>
  if i < 0 then 0 else l.getD i.toNat 0

/-- The tile index of the tile containing pixel `(x, y)`: the tile position is
`(x/M, y/M)`, re-encoded as a linear tile index according to the layout. -/
def tileIndexAt (N M : ℕ) (layout : Layout) (x y : ℕ) : ℕ :=
  if layout = .wide then x / M % N + x / M / N * N + y / M * (N * N)
  else x / M + y / M % N * N + y / M / N * (N * N)

/-! ### Tile-index arithmetic -/

lemma tileIndexToRGB_lt {N t : ℕ} (hN : 0 < N) (ht : t < N * N * N) :
    (tileIndexToRGB t N).1 < N ∧ (tileIndexToRGB t N).2.1 < N ∧
      (tileIndexToRGB t N).2.2 < N := by
  refine ⟨Nat.mod_lt _ hN, Nat.mod_lt _ hN, ?_⟩
  simp only [tileIndexToRGB]
  rw [Nat.div_lt_iff_lt_mul (Nat.mul_pos hN hN), mul_comm]
  exact ht

lemma encode_decode {N t : ℕ} :
    rgbToTileIndex (tileIndexToRGB t N).1 (tileIndexToRGB t N).2.1
      (tileIndexToRGB t N).2.2 N = t := by
  simp only [tileIndexToRGB, rgbToTileIndex]
  calc t % N + t / N % N * N + t / (N * N) * (N * N)
      = t % N + (t / N % N + N * (t / N / N)) * N := by
        rw [Nat.div_div_eq_div_mul]; ring
    _ = t % N + N * (t / N) := by rw [Nat.mod_add_div]; ring
    _ = t := Nat.mod_add_div t N

lemma decode_encode {N r g b : ℕ} (hr : r < N) (hg : g < N) (hb : b < N) :
    tileIndexToRGB (rgbToTileIndex r g b N) N = (r, g, b) := by
  have hN : 0 < N := by omega
  have e1 : rgbToTileIndex r g b N = r + (g + b * N) * N := by
    simp only [rgbToTileIndex]; ring
  have hE : rgbToTileIndex r g b N / N = g + b * N := by
    rw [e1, Nat.add_mul_div_right _ _ hN, Nat.div_eq_of_lt hr, Nat.zero_add]
  simp only [tileIndexToRGB, Prod.mk.injEq]
  refine ⟨?_, ?_, ?_⟩
  · rw [e1, Nat.add_mul_mod_self_right, Nat.mod_eq_of_lt hr]
  · rw [hE, Nat.add_mul_mod_self_right, Nat.mod_eq_of_lt hg]
  · rw [← Nat.div_div_eq_div_mul, hE, Nat.add_mul_div_right _ _ hN,
      Nat.div_eq_of_lt hg, Nat.zero_add]

lemma rgbToTileIndex_lt {N r g b : ℕ} (hr : r < N) (hg : g < N) (hb : b < N) :
    rgbToTileIndex r g b N < N * N * N := by
  simp only [rgbToTileIndex]
  calc r + g * N + b * (N * N)
      ≤ (N - 1) + (N - 1) * N + (N - 1) * (N * N) := by
        gcongr <;> omega
    _ < N * N * N := by
        have h1 : 1 ≤ N := by omega
        nlinarith [Nat.sub_add_cancel h1]

/-! ### Rounding and quantization -/

lemma jsRound_intCast (z : ℤ) : jsRound (z : ℚ) = z := by
  unfold jsRound
  rw [Int.floor_eq_iff]
  constructor
  · linarith
  · push_cast; linarith

lemma jsRound_natCast (n : ℕ) : jsRound (n : ℚ) = n := by
  have := jsRound_intCast (n : ℤ)
  rwa [Int.cast_natCast] at this

lemma jsRound_mono {p q : ℚ} (h : p ≤ q) : jsRound p ≤ jsRound q :=
  Int.floor_le_floor (by linarith)

lemma jsRound_abs_sub_le (q : ℚ) : |((jsRound q : ℤ) : ℚ) - q| ≤ 1 / 2 := by
  unfold jsRound
  have h1 := Int.floor_le (q + 1 / 2)
  have h2 := Int.lt_floor_add_one (q + 1 / 2)
  rw [abs_le]
  constructor <;> push_cast at h1 h2 ⊢ <;> linarith

lemma v_zero {N : ℕ} (hN : 2 ≤ N) : v 0 N = 0 := by
  have hN1 : ¬ N ≤ 1 := by omega
  simp only [v, hN1, if_false, Nat.cast_zero, zero_mul, zero_div]
  rw [show (0 : ℚ) = ((0 : ℤ) : ℚ) by norm_num, jsRound_intCast]
  rfl

lemma v_last {N : ℕ} (hN : 2 ≤ N) : v (N - 1) N = 255 := by
  have hN1 : ¬ N ≤ 1 := by omega
  have h1 : 1 ≤ N := by omega
  have hcast : ((N - 1 : ℕ) : ℚ) = (N : ℚ) - 1 := by
    push_cast [h1]; ring
  have hpos : (0 : ℚ) < (N : ℚ) - 1 := by
    have : (2 : ℚ) ≤ (N : ℚ) := by exact_mod_cast hN
    linarith
  simp only [v, hN1, if_false, hcast]
  rw [show ((N : ℚ) - 1) * 255 / ((N : ℚ) - 1) = 255 by field_simp]
  rw [show (255 : ℚ) = ((255 : ℤ) : ℚ) by norm_num, jsRound_intCast]
  rfl

lemma v_mono {N i j : ℕ} (hij : i ≤ j) : v i N ≤ v j N := by
  by_cases hN1 : N ≤ 1
  · simp [v, hN1]
  · simp only [v, hN1, if_false]
    have hpos : (0 : ℚ) < (N : ℚ) - 1 := by
      have : (2 : ℚ) ≤ (N : ℚ) := by exact_mod_cast (by omega : 2 ≤ N)
      linarith
    have hle : (i : ℚ) * 255 / ((N : ℚ) - 1) ≤ (j : ℚ) * 255 / ((N : ℚ) - 1) := by
      have hcast : (i : ℚ) ≤ (j : ℚ) := Nat.cast_le.2 hij
      gcongr

    exact Int.toNat_le_toNat (jsRound_mono hle)

lemma v_le_255 {N i : ℕ} (hi : i < N) : v i N ≤ 255 := by
  by_cases hN1 : N ≤ 1
  · simp [v, hN1]
  · have h2 : 2 ≤ N := by omega
    have := @v_mono N i (N - 1) (by omega)
    rw [v_last h2] at this
    exact this

/-! ### Geometry detection -/

lemma wideHyp_eq_some {w h : ℕ} {g : Geometry} (hg : wideHyp w h = some g) :
    g.layout = .wide ∧ 2 ≤ g.N ∧ g.N ≤ 256 ∧ 1 ≤ g.M ∧
      g.N * g.N * g.M = w ∧ g.N * g.M = h := by
  simp only [wideHyp] at hg
  split_ifs at hg with h1 h2 h3 h4 h5
  · rw [Option.some.injEq] at hg
    subst hg
    exact ⟨rfl, h2.1, h2.2, h4, h5.1, h5.2⟩
  all_goals simp at hg

lemma tallHyp_eq_some {w h : ℕ} {g : Geometry} (hg : tallHyp w h = some g) :
    g.layout = .tall ∧ 2 ≤ g.N ∧ g.N ≤ 256 ∧ 1 ≤ g.M ∧
      g.N * g.M = w ∧ g.N * g.N * g.M = h := by
  simp only [tallHyp] at hg
  split_ifs at hg with h1 h2 h3 h4 h5
  · rw [Option.some.injEq] at hg
    subst hg
    exact ⟨rfl, h2.1, h2.2, h4, h5.1, h5.2⟩
  all_goals simp at hg

lemma hyp_exclusive (w h : ℕ) :
    ¬((wideHyp w h).isSome ∧ (tallHyp w h).isSome) := by
  rintro ⟨hw, ht⟩
  obtain ⟨gw, hgw⟩ := Option.isSome_iff_exists.1 hw
  obtain ⟨gt, hgt⟩ := Option.isSome_iff_exists.1 ht
  obtain ⟨-, hw2, -, hwM, hwW, hwH⟩ := wideHyp_eq_some hgw
  obtain ⟨-, ht2, -, htM, htW, htH⟩ := tallHyp_eq_some hgt
  have e1 : w = gw.N * h := by rw [← hwW, ← hwH]; ring
  have e2 : h = gt.N * w := by rw [← htH, ← htW]; ring
  have hh2 : 2 ≤ h := by
    calc 2 = 2 * 1 := by norm_num
    _ ≤ gw.N * gw.M := Nat.mul_le_mul hw2 hwM
    _ = h := hwH
  have hww : 2 * h ≤ w := by
    rw [e1]; exact Nat.mul_le_mul_right h hw2
  have hhh : 2 * w ≤ h := by
    rw [e2]; exact Nat.mul_le_mul_right w ht2
  omega

lemma wideHyp_roundtrip (N M : ℕ) (h2 : 2 ≤ N) (h256 : N ≤ 256) (hM : 1 ≤ M) :
    wideHyp (N * N * M) (N * M) = some ⟨N, M, .wide⟩ := by
  have hNM : 0 < N * M := Nat.mul_pos (by omega) hM
  have hmod : N * N * M % (N * M) = 0 := by
    rw [mul_assoc]; exact Nat.mul_mod_left N (N * M)
  have hdiv : N * N * M / (N * M) = N := by
    rw [mul_assoc]; exact Nat.mul_div_left N hNM
  have hmod2 : N * M % N = 0 := Nat.mul_mod_right N M
  have hdiv2 : N * M / N = M := Nat.mul_div_cancel_left M (by omega)
  simp only [wideHyp, hmod, hdiv, hdiv2, hmod2]
  simp [hNM, h2, h256, hM]

lemma wideHyp_of_tall_input (N M : ℕ) (h2 : 2 ≤ N) (hM : 1 ≤ M) :
    wideHyp (N * M) (N * N * M) = none := by
  have hNM : 0 < N * M := Nat.mul_pos (by omega) hM
  have hlt : N * M < N * N * M := by
    calc N * M < 2 * (N * M) := by omega
    _ ≤ N * (N * M) := Nat.mul_le_mul_right (N * M) h2
    _ = N * N * M := by ring
  have hmod : N * M % (N * N * M) = N * M := Nat.mod_eq_of_lt hlt
  simp only [wideHyp, hmod]
  rw [if_neg]
  rintro ⟨-, hzero⟩
  omega

lemma tallHyp_roundtrip (N M : ℕ) (h2 : 2 ≤ N) (h256 : N ≤ 256) (hM : 1 ≤ M) :
    tallHyp (N * M) (N * N * M) = some ⟨N, M, .tall⟩ := by
  have hNM : 0 < N * M := Nat.mul_pos (by omega) hM
  have hmod : N * N * M % (N * M) = 0 := by
    rw [mul_assoc]; exact Nat.mul_mod_left N (N * M)
  have hdiv : N * N * M / (N * M) = N := by
    rw [mul_assoc]; exact Nat.mul_div_left N hNM
  have hmod2 : N * M % N = 0 := Nat.mul_mod_right N M
  have hdiv2 : N * M / N = M := Nat.mul_div_cancel_left M (by omega)
  simp only [tallHyp, hmod, hdiv, hdiv2, hmod2]
  simp [hNM, h2, h256, hM]

/-! ### Generic loop lemmas -/

lemma foldlM_pure_ok {σ α ε : Type} (f : σ → α → σ) (l : List α) (init : σ) :
    (l.foldlM (fun s a => (Except.ok (f s a) : Except ε σ)) init) =
      .ok (l.foldl f init) := by
  induction l generalizing init with
  | nil => rfl
  | cons a l ih => rw [List.foldlM_cons, List.foldl_cons]; exact ih (f init a)

lemma foldlM_head_error {σ α ε : Type} (f : σ → α → Except ε σ) (a : α)
    (l : List α) (s : σ) (e : ε) (h : f s a = .error e) :
    ((a :: l).foldlM f s) = .error e := by
  rw [List.foldlM_cons, h]
  rfl

lemma foldlM_singleton {σ α ε : Type} (f : σ → α → Except ε σ) (a : α) (s : σ) :
    ([a].foldlM f s) = f s a := by
  rw [List.foldlM_cons]
  cases h : f s a <;> rfl

lemma foldlM_append_ok {σ α ε : Type} (g : α → List σ) (l : List α)
    (init : List σ) :
    (l.foldlM (fun acc x => (Except.ok (acc ++ g x) : Except ε (List σ))) init) =
      .ok (init ++ l.flatMap g) := by
  induction l generalizing init with
  | nil => simp; rfl
  | cons a l ih =>
    rw [List.foldlM_cons]
    show (l.foldlM _ (init ++ g a)) = _
    rw [ih]
    simp [List.flatMap_cons]

lemma flatMap_singleton_eq_map {α β : Type} (f : α → β) (l : List α) :
    l.flatMap (fun x => [f x]) = l.map f := by
  induction l with
  | nil => rfl
  | cons a l ih => simp [List.flatMap_cons, ih]

lemma range_split (k n : ℕ) (h : k < n) :
    List.range n =
      List.range k ++ k :: (List.range (n - (k + 1))).map (fun x => k + 1 + x) := by
  have h1 : n = k + (1 + (n - (k + 1))) := by omega
  conv_lhs => rw [h1]
  rw [List.range_add, List.range_add, List.map_append, List.map_map]
  simp [Function.comp_def, add_assoc, List.range_succ]

/-! ### Loop characterizations of the three operations -/

lemma generateStep1Pattern_ok (N M : ℕ) (layout : Layout) (maxDim : ℕ)
    (hw : (computeDims N M layout).width ≤ maxDim)
    (hh : (computeDims N M layout).height ≤ maxDim) :
    generateStep1Pattern N M layout maxDim false = .ok (drawTiles N M layout) := by
  simp only [generateStep1Pattern]
  rw [if_neg (by omega)]
  exact foldlM_pure_ok (drawTile N M layout) _ _

lemma generateStep1Pattern_cancel (N M : ℕ) (layout : Layout) (maxDim : ℕ)
    (hN : 1 ≤ N)
    (hw : (computeDims N M layout).width ≤ maxDim)
    (hh : (computeDims N M layout).height ≤ maxDim) :
    generateStep1Pattern N M layout maxDim true = .error .cancelled := by
  simp only [generateStep1Pattern]
  rw [if_neg (by omega)]
  have hpos : 0 < N * N * N := Nat.mul_pos (Nat.mul_pos hN hN) hN
  obtain ⟨k, hk⟩ : ∃ k, N * N * N = k + 1 := ⟨N * N * N - 1, by omega⟩
  rw [hk, List.range_succ_eq_map]
  exact foldlM_head_error _ 0 _ _ _ rfl

lemma applyStep2Filter_cancel (buf : ℕ → ℕ) (W H : ℕ) (fn : FilterFn)
    (hH : 1 ≤ H) :
    applyStep2Filter buf W H fn true = .error .cancelled := by
  unfold applyStep2Filter
  obtain ⟨k, hk⟩ : ∃ k, H = k + 1 := ⟨H - 1, by omega⟩
  rw [hk, List.range_succ_eq_map,
    foldlM_head_error _ 0 _ _ FilterError.cancelled rfl]
  rfl

lemma generateCubeLut_cancel (data : ℤ → ℕ) (imgW imgH N M : ℕ)
    (layout : Layout) (hN : 1 ≤ N) :
    generateCubeLut data imgW imgH N M layout true = .error .cancelled := by
  unfold generateCubeLut
  obtain ⟨k, hk⟩ : ∃ k, N = k + 1 := ⟨N - 1, by omega⟩
  subst hk
  simp only [List.range_succ_eq_map]
  refine foldlM_head_error _ 0 _ _ _ ?_
  refine foldlM_head_error _ 0 _ _ _ ?_
  exact foldlM_head_error _ 0 _ _ _ rfl

/-! ### Claim theorems: tile addressing and geometry detection -/

/-- C3: for every N ≥ 2, `tileIndexToRGB` restricted to t ∈ [0, N³) takes
values in [0,N)³ and has `t = r + g·N + b·N²` as a left inverse (hence no two
indices give the same triple), and conversely every triple of [0,N)³ is hit at
exactly that index — i.e. it is a bijection onto [0,N)³ with the stated
inverse. -/
theorem claim3_tileIndex_bijection (N : ℕ) (hN : 2 ≤ N) :
    (∀ t, t < N * N * N →
      ((tileIndexToRGB t N).1 < N ∧ (tileIndexToRGB t N).2.1 < N ∧
        (tileIndexToRGB t N).2.2 < N) ∧
      rgbToTileIndex (tileIndexToRGB t N).1 (tileIndexToRGB t N).2.1
        (tileIndexToRGB t N).2.2 N = t) ∧
    (∀ r g b, r < N → g < N → b < N →
      tileIndexToRGB (rgbToTileIndex r g b N) N = (r, g, b)) :=
  ⟨fun _ ht => ⟨tileIndexToRGB_lt (by omega) ht, encode_decode⟩,
    fun _ _ _ hr hg hb => decode_encode hr hg hb⟩

/-- Witness for C3 at N = 2, (r,g,b) = (1,0,1). -/
theorem claim3_witness :
    tileIndexToRGB (rgbToTileIndex 1 0 1 2) 2 = (1, 0, 1) :=
  (claim3_tileIndex_bijection 2 (by norm_num)).2 1 0 1 (by norm_num) (by norm_num)
    (by norm_num)

/-- C8: for every N ≥ 2, `v 0 N = 0` and `v (N−1) N = 255`, and for every N
the map i ↦ v i N is monotonically non-decreasing on [0, N). -/
theorem claim8_quantize_spec (N : ℕ) :
    (2 ≤ N → v 0 N = 0 ∧ v (N - 1) N = 255) ∧
    (∀ i j, i ≤ j → j < N → v i N ≤ v j N) :=
  ⟨fun hN => ⟨v_zero hN, v_last hN⟩, fun _ _ hij _ => v_mono hij⟩

/-- Witness for C8 at N = 6 (endpoints) and i = 2 ≤ j = 4 (monotonicity). -/
theorem claim8_witness : v 0 6 = 0 ∧ v 5 6 = 255 ∧ v 2 6 ≤ v 4 6 :=
  ⟨((claim8_quantize_spec 6).1 (by norm_num)).1,
   ((claim8_quantize_spec 6).1 (by norm_num)).2,
   (claim8_quantize_spec 6).2 2 4 (by norm_num) (by norm_num)⟩

/-- C1 counterexample: at N = 257, M = 1, layout = wide — parameters allowed
by the claim (N ≥ 2, M ≥ 1) — detection of the generated 66049×257 image fails
entirely (the detector caps N at 256), so the round-trip does not return
{N, M, layout} for every N ≥ 2. -/
theorem claim1_counterexample :
    detectGeometry (computeDims 257 1 .wide).width
        (computeDims 257 1 .wide).height = none ∧
      detectGeometry (computeDims 257 1 .wide).width
          (computeDims 257 1 .wide).height ≠ some ⟨257, 1, .wide⟩ := by
  refine ⟨by decide, by decide⟩

/-- C1 (amended): for every 2 ≤ N ≤ 256, M ≥ 1 and layout, applying
`detectGeometry` to the width and height produced by `computeDims (N, M,
layout)` returns exactly {N, M, layout} — in particular for N = 4, M = 1,
wide (width 16, height 4) it returns wide (see the witness). The detector's
upper bound N ≤ 256 is the only restriction beyond the claim's N ≥ 2. -/
theorem claim1_detect_roundtrip (N M : ℕ) (layout : Layout) (h2 : 2 ≤ N)
    (h256 : N ≤ 256) (hM : 1 ≤ M) :
    detectGeometry (computeDims N M layout).width
      (computeDims N M layout).height = some ⟨N, M, layout⟩ := by
  cases layout
  · have hw : (computeDims N M .tall).width = N * M := by simp [computeDims]
    have hh : (computeDims N M .tall).height = N * N * M := by simp [computeDims]
    rw [hw, hh]
    simp only [detectGeometry, wideHyp_of_tall_input N M h2 hM,
      tallHyp_roundtrip N M h2 h256 hM]
  · have hw : (computeDims N M .wide).width = N * N * M := by simp [computeDims]
    have hh : (computeDims N M .wide).height = N * M := by simp [computeDims]
    rw [hw, hh]
    simp only [detectGeometry, wideHyp_roundtrip N M h2 h256 hM]

/-- Witness for C1 (amended) at the claim's own instance N = 4, M = 1, wide:
the 16×4 image is detected as wide, not as a coincidental tall match. -/
theorem claim1_witness :
    detectGeometry (computeDims 4 1 .wide).width (computeDims 4 1 .wide).height =
      some ⟨4, 1, .wide⟩ :=
  claim1_detect_roundtrip 4 1 .wide (by norm_num) (by norm_num) (by norm_num)

/-! ### Clamping and packing lemmas for the pixel-filter engine -/

lemma clampRound_le_255 (q : ℚ) : clampRound q ≤ 255 := by
  unfold clampRound
  omega

lemma clampRound_natCast {n : ℕ} (h : n ≤ 255) : clampRound (n : ℚ) = n := by
  unfold clampRound
  rw [jsRound_natCast]
  omega

lemma finalizeChannel_le (pre : ℕ) (o : Option ℚ) : finalizeChannel pre o ≤ 255 :=
  clampRound_le_255 _

lemma unpack_packRGB {r g b : ℕ} (hr : r ≤ 255) (hg : g ≤ 255) (hb : b ≤ 255) :
    unpackR (packRGB r g b) = r ∧ unpackG (packRGB r g b) = g ∧
      unpackB (packRGB r g b) = b := by
  unfold unpackR unpackG unpackB packRGB
  omega

lemma clampRound_999 : clampRound 999 = 255 := by
  have h : jsRound (999 : ℚ) = 999 := by
    rw [show (999 : ℚ) = ((999 : ℤ) : ℚ) by norm_num]
    exact jsRound_intCast 999
  unfold clampRound
  rw [h]
  decide

lemma clampRound_neg50 : clampRound (-50) = 0 := by
  have h : jsRound (-50 : ℚ) = -50 := by
    rw [show (-50 : ℚ) = ((-50 : ℤ) : ℚ) by norm_num]
    exact jsRound_intCast (-50)
  unfold clampRound
  rw [h]
  decide

/-- C4: for every compiled filter and pixel, when the script completes, each
packed output channel (as unpacked and written back by `applyStep2Filter`)
equals the pre-filter channel value if the script left that channel
non-finite, and otherwise the script's value rounded to nearest and clamped
to [0,255]; in particular a value 999 clamps to 255 and −50 clamps to 0. -/
theorem claim4_channel_finalization (script : ScriptFn) (r g b x y W H : ℕ)
    (hr : r ≤ 255) (hg : g ≤ 255) (hb : b ≤ 255) (oR oG oB : Option ℚ)
    (hs : script r g b x y W H = .ok (oR, oG, oB)) :
    (∃ packed, compilePixelFilter script r g b x y W H = .ok packed ∧
      unpackR packed = (match oR with | none => r | some q => clampRound q) ∧
      unpackG packed = (match oG with | none => g | some q => clampRound q) ∧
      unpackB packed = (match oB with | none => b | some q => clampRound q)) ∧
    clampRound 999 = 255 ∧ clampRound (-50) = 0 := by
  refine ⟨?_, clampRound_999, clampRound_neg50⟩
  obtain ⟨h1, h2, h3⟩ := unpack_packRGB (finalizeChannel_le r oR)
    (finalizeChannel_le g oG) (finalizeChannel_le b oB)
  refine ⟨packRGB (finalizeChannel r oR) (finalizeChannel g oG)
    (finalizeChannel b oB), ?_, ?_, ?_, ?_⟩
  · unfold compilePixelFilter
    rw [hs]
  · rw [h1]
    cases oR with
    | none => exact clampRound_natCast hr
    | some q => rfl
  · rw [h2]
    cases oG with
    | none => exact clampRound_natCast hg
    | some q => rfl
  · rw [h3]
    cases oB with
    | none => exact clampRound_natCast hb
    | some q => rfl

/-- Witness for C4: a script that sets R to 999, leaves G non-finite, and sets
B to −50, applied at pre-filter colour (10, 20, 30): output channels are
(255, 20, 0). -/
theorem claim4_witness :
    (∃ packed, compilePixelFilter (fun _ _ _ _ _ _ _ =>
        .ok (some 999, none, some (-50))) 10 20 30 0 0 1 1 = .ok packed ∧
      unpackR packed = clampRound 999 ∧ unpackG packed = 20 ∧
      unpackB packed = clampRound (-50)) ∧
    clampRound 999 = 255 ∧ clampRound (-50) = 0 :=
  claim4_channel_finalization (fun _ _ _ _ _ _ _ => .ok (some 999, none, some (-50)))
    10 20 30 0 0 1 1 (by norm_num) (by norm_num) (by norm_num)
    (some 999) none (some (-50)) rfl

/-- C5 counterexample: with capability maxDim = 3 and N = 2, M = 1, wide, the
requested 4×2 pattern exceeds the limit, and the thrown error suggests M = 1
(the source reports `Math.max(1, ⌊maxDim/N²⌋)`), whereas ⌊maxDim/N²⌋ = ⌊3/4⌋ =
0 — the claim's "largest M that would fit, namely floor(maxDim/N²)" does not
match what the error reports (indeed no M ≥ 1 fits at all). -/
theorem claim5_counterexample :
    generateStep1Pattern 2 1 .wide 3 false =
      .error (.dimensionLimitExceeded 4 2 1) ∧ 3 / (2 * 2) = 0 ∧ (1 : ℕ) ≠ 0 := by
  refine ⟨by rfl, by norm_num, by norm_num⟩

/-- C5 (amended): pattern generation fails with a dimension-limit error
exactly when the computed width or height exceeds the capability value; the
error reports the offending width and height together with
`max(1, ⌊maxDim/N²⌋)` as the suggested M; when both dimensions are within the
limit, no dimension-limit error is raised. -/
theorem claim5_dimension_limit (N M maxDim : ℕ) (layout : Layout)
    (cancelled : Bool) :
    (maxDim < (computeDims N M layout).width ∨
        maxDim < (computeDims N M layout).height →
      generateStep1Pattern N M layout maxDim cancelled =
        .error (.dimensionLimitExceeded (computeDims N M layout).width
          (computeDims N M layout).height (max 1 (maxDim / (N * N))))) ∧
    ((computeDims N M layout).width ≤ maxDim →
      (computeDims N M layout).height ≤ maxDim →
      ∀ w h m, generateStep1Pattern N M layout maxDim cancelled ≠
        .error (.dimensionLimitExceeded w h m)) := by
  constructor
  · intro hgt
    simp only [generateStep1Pattern]
    rw [if_pos hgt]
  · intro hw hh w h m
    cases cancelled
    · rw [generateStep1Pattern_ok N M layout maxDim hw hh]
      simp
    · rcases Nat.eq_zero_or_pos N with h0 | hpos
      · subst h0
        simp only [generateStep1Pattern]
        rw [if_neg (by omega)]
        simp only [Nat.zero_mul, List.range_zero, List.foldlM_nil]
        exact fun hc => Except.noConfusion hc
      · rw [generateStep1Pattern_cancel N M layout maxDim hpos hw hh]
        simp

/-- Witness for C5 (amended) at N = 2, M = 1, wide, maxDim = 3 (limit
exceeded) — the raised error carries width 4, height 2, suggested M 1. -/
theorem claim5_witness :
    generateStep1Pattern 2 1 .wide 3 false =
      .error (.dimensionLimitExceeded (computeDims 2 1 .wide).width
        (computeDims 2 1 .wide).height (max 1 (3 / (2 * 2)))) :=
  (claim5_dimension_limit 2 1 3 .wide false).1 (by decide)

/-! ### Step-2 loop invariants: the filter pass up to the first throwing pixel -/

lemma filterRow_ok (fn : FilterFn) (W H y : ℕ) (buf : ℕ → ℕ) :
    ∀ (k : ℕ), k ≤ W →
      (∀ x, x < k → ∃ p, fn (buf (4 * (y * W + x))) (buf (4 * (y * W + x) + 1))
        (buf (4 * (y * W + x) + 2)) x y W H = .ok p) →
      ∀ st : (ℕ → ℕ) × ℕ, (∀ j, 4 * (y * W) ≤ j → st.1 j = buf j) →
      ∃ st' : (ℕ → ℕ) × ℕ,
        (List.range k).foldlM (filterStep fn W H false y) st = .ok st' ∧
        (∀ j, 4 * (y * W + k) ≤ j → st'.1 j = buf j) := by
  intro k
  induction k with
  | zero =>
    intro _ _ st hst
    exact ⟨st, rfl, fun j hj => hst j (by omega)⟩
  | succ k ih =>
    intro hk hok st hst
    obtain ⟨st', hfold, hst'⟩ := ih (by omega) (fun x hx => hok x (by omega)) st hst
    obtain ⟨p, hp⟩ := hok k (by omega)
    have hr0 : st'.1 (4 * (y * W + k)) = buf (4 * (y * W + k)) := hst' _ (by omega)
    have hr1 : st'.1 (4 * (y * W + k) + 1) = buf (4 * (y * W + k) + 1) :=
      hst' _ (by omega)
    have hr2 : st'.1 (4 * (y * W + k) + 2) = buf (4 * (y * W + k) + 2) :=
      hst' _ (by omega)
    have hstep : filterStep fn W H false y st' k =
        .ok (write3 st'.1 (4 * (y * W + k)) (unpackR p) (unpackG p) (unpackB p),
          st'.2 + 1) := by
      simp only [filterStep]
      rw [hr0, hr1, hr2, hp]
      simp
    refine ⟨(write3 st'.1 (4 * (y * W + k)) (unpackR p) (unpackG p) (unpackB p),
      st'.2 + 1), ?_, ?_⟩
    · rw [List.range_succ, List.foldlM_append, hfold]
      show ([k].foldlM (filterStep fn W H false y) st') = _
      rw [foldlM_singleton, hstep]
    · intro j hj
      simp only [write3]
      rw [if_neg (by omega), if_neg (by omega), if_neg (by omega)]
      exact hst' j (by omega)

lemma filterRow_error (fn : FilterFn) (W H y : ℕ) (buf : ℕ → ℕ) (x₀ : ℕ)
    (msg : String) (hx : x₀ < W)
    (hok : ∀ x, x < x₀ → ∃ p, fn (buf (4 * (y * W + x))) (buf (4 * (y * W + x) + 1))
      (buf (4 * (y * W + x) + 2)) x y W H = .ok p)
    (hthrow : fn (buf (4 * (y * W + x₀))) (buf (4 * (y * W + x₀) + 1))
      (buf (4 * (y * W + x₀) + 2)) x₀ y W H = .error msg) :
    ∀ st : (ℕ → ℕ) × ℕ, (∀ j, 4 * (y * W) ≤ j → st.1 j = buf j) →
      (List.range W).foldlM (filterStep fn W H false y) st =
        .error (.filterRuntime x₀ y msg) := by
  intro st hst
  obtain ⟨st', hfold, hst'⟩ := filterRow_ok fn W H y buf x₀ (by omega) hok st hst
  have hstep : filterStep fn W H false y st' x₀ =
      .error (.filterRuntime x₀ y msg) := by
    simp only [filterStep]
    rw [hst' (4 * (y * W + x₀)) (by omega), hst' (4 * (y * W + x₀) + 1) (by omega),
      hst' (4 * (y * W + x₀) + 2) (by omega), hthrow]
  rw [range_split x₀ W hx, List.foldlM_append, hfold]
  show ((x₀ :: (List.range (W - (x₀ + 1))).map fun x => x₀ + 1 + x).foldlM
    (filterStep fn W H false y) st') = _
  exact foldlM_head_error _ _ _ _ _ hstep

lemma filterRows_ok (fn : FilterFn) (W H : ℕ) (buf : ℕ → ℕ) :
    ∀ (m : ℕ), m ≤ H →
      (∀ x y, y < m → x < W → ∃ p, fn (buf (4 * (y * W + x)))
        (buf (4 * (y * W + x) + 1)) (buf (4 * (y * W + x) + 2)) x y W H = .ok p) →
      ∃ st' : (ℕ → ℕ) × ℕ,
        (List.range m).foldlM
          (fun st y => if false then Except.error FilterError.cancelled
            else (List.range W).foldlM (filterStep fn W H false y) st)
          (buf, 0) = .ok st' ∧
        (∀ j, 4 * (m * W) ≤ j → st'.1 j = buf j) := by
  intro m
  induction m with
  | zero =>
    intro _ _
    exact ⟨(buf, 0), rfl, fun j hj => rfl⟩
  | succ m ih =>
    intro hm hok
    obtain ⟨st', hfold, hst'⟩ := ih (by omega) (fun x y hy hx => hok x y (by omega) hx)
    obtain ⟨st'', hrow, hst''⟩ := filterRow_ok fn W H m buf W (le_refl W)
      (fun x hx => hok x m (by omega) hx) st' (fun j hj => hst' j (by omega))
    refine ⟨st'', ?_, fun j hj => hst'' j ?_⟩
    · rw [List.range_succ, List.foldlM_append, hfold]
      show ([m].foldlM (fun st y => if false then Except.error FilterError.cancelled
        else (List.range W).foldlM (filterStep fn W H false y) st) st') = _
      rw [foldlM_singleton]
      show ((List.range W).foldlM (filterStep fn W H false m) st') = _
      exact hrow
    · have he : (m + 1) * W = m * W + W := by ring
      omega

/-- C6: with the cancellation flag clear, if the filter throws at the first
pixel (in row-major order) where it does not succeed, the whole pass raises
the error identifying that pixel's (x, y) and the underlying message, and no
output buffer is produced (there is no per-pixel skip-and-continue). -/
theorem claim6_filter_runtime_error (buf : ℕ → ℕ) (W H : ℕ) (fn : FilterFn)
    (x₀ y₀ : ℕ) (msg : String) (hx : x₀ < W) (hy : y₀ < H)
    (hthrow : fn (buf (4 * (y₀ * W + x₀))) (buf (4 * (y₀ * W + x₀) + 1))
      (buf (4 * (y₀ * W + x₀) + 2)) x₀ y₀ W H = .error msg)
    (hbefore : ∀ x y, y < H → x < W → (y < y₀ ∨ (y = y₀ ∧ x < x₀)) →
      ∃ p, fn (buf (4 * (y * W + x))) (buf (4 * (y * W + x) + 1))
        (buf (4 * (y * W + x) + 2)) x y W H = .ok p) :
    applyStep2Filter buf W H fn false = .error (.filterRuntime x₀ y₀ msg) ∧
    ∀ out, applyStep2Filter buf W H fn false ≠ .ok out := by
  have hmain : applyStep2Filter buf W H fn false =
      .error (.filterRuntime x₀ y₀ msg) := by
    unfold applyStep2Filter
    obtain ⟨st', hfold, hst'⟩ := filterRows_ok fn W H buf y₀ (by omega)
      (fun x y hy' hx' => hbefore x y (by omega) hx' (Or.inl hy'))
    have hrowstep : (fun (st : (ℕ → ℕ) × ℕ) (y : ℕ) =>
        if false then Except.error FilterError.cancelled
        else (List.range W).foldlM (filterStep fn W H false y) st) st' y₀ =
        Except.error (FilterError.filterRuntime x₀ y₀ msg) :=
      filterRow_error fn W H y₀ buf x₀ msg hx
        (fun x hx' => hbefore x y₀ (by omega) (by omega) (Or.inr ⟨rfl, hx'⟩))
        hthrow st' (fun j hj => hst' j hj)
    rw [range_split y₀ H hy, List.foldlM_append, hfold]
    show Except.map Prod.fst
      ((y₀ :: (List.range (H - (y₀ + 1))).map fun x => y₀ + 1 + x).foldlM
        (fun st y => if false then Except.error FilterError.cancelled
          else (List.range W).foldlM (filterStep fn W H false y) st) st') = _
    rw [foldlM_head_error _ y₀ _ st' _ hrowstep]
    rfl
  exact ⟨hmain, fun out hout => by
    rw [hmain] at hout
    exact Except.noConfusion hout⟩

/-- Witness for C6: a 2×1 image where the filter succeeds at x = 0 and throws
at x = 1: the pass fails with the error naming pixel (1, 0). -/
theorem claim6_witness :
    applyStep2Filter (fun _ => 0) 2 1
        (fun _ _ _ x _ _ _ => if x = 1 then .error "boom" else .ok 0) false =
      .error (.filterRuntime 1 0 "boom") ∧
    ∀ out, applyStep2Filter (fun _ => 0) 2 1
        (fun _ _ _ x _ _ _ => if x = 1 then .error "boom" else .ok 0) false ≠
      .ok out :=
  claim6_filter_runtime_error (fun _ => 0) 2 1
    (fun _ _ _ x _ _ _ => if x = 1 then .error "boom" else .ok 0) 1 0 "boom"
    (by norm_num) (by norm_num) (by norm_num)
    (by
      intro x y hy hx hcase
      have hx0 : x = 0 := by omega
      have hy0 : y = 0 := by omega
      subst hx0
      subst hy0
      exact ⟨0, rfl⟩)

/-- C7: for each long-running operation — pattern generation (once its
dimension precondition passes and there is at least one tile), pixel filtering
(at least one row), and LUT sampling (at least one cell) — if the cancellation
flag is already set before the operation reaches any yield point, the
operation raises Cancelled, hence never returns a blob/file. -/
theorem claim7_early_cancellation (N M maxDim : ℕ) (layout : Layout)
    (buf : ℕ → ℕ) (W H : ℕ) (fn : FilterFn)
    (data : ℤ → ℕ) (imgW imgH N2 M2 : ℕ) (layout2 : Layout)
    (hN : 1 ≤ N)
    (hw : (computeDims N M layout).width ≤ maxDim)
    (hh : (computeDims N M layout).height ≤ maxDim)
    (hH : 1 ≤ H) (hN2 : 1 ≤ N2) :
    generateStep1Pattern N M layout maxDim true = .error .cancelled ∧
    applyStep2Filter buf W H fn true = .error .cancelled ∧
    generateCubeLut data imgW imgH N2 M2 layout2 true = .error .cancelled :=
  ⟨generateStep1Pattern_cancel N M layout maxDim hN hw hh,
   applyStep2Filter_cancel buf W H fn hH,
   generateCubeLut_cancel data imgW imgH N2 M2 layout2 hN2⟩

/-- Witness for C7 with concrete inputs for all three operations. -/
theorem claim7_witness :
    generateStep1Pattern 2 1 .wide 16 true = .error .cancelled ∧
    applyStep2Filter (fun _ => 0) 1 1 (fun _ _ _ _ _ _ _ => .ok 0) true =
      .error .cancelled ∧
    generateCubeLut (fun _ => 0) 1 1 2 1 .tall true = .error .cancelled :=
  claim7_early_cancellation 2 1 16 .wide (fun _ => 0) 1 1
    (fun _ _ _ _ _ _ _ => .ok 0) (fun _ => 0) 1 1 2 1 .tall
    (by norm_num) (by decide) (by decide) (by norm_num) (by norm_num)

/-! ### Sampler geometry lemmas -/

lemma two_mul_sampleMargin_le (M : ℕ) : 2 * sampleMargin M ≤ M := by
  unfold sampleMargin
  split_ifs with h <;> omega

lemma sampleRegion_pos {M : ℕ} (hM : 1 ≤ M) : 1 ≤ sampleRegion M := by
  unfold sampleRegion sampleMargin
  split_ifs with h <;> omega

lemma sampleS_pos (M : ℕ) : 1 ≤ sampleS M := le_max_left 1 _

lemma sampleS_le_region {M : ℕ} (hM : 1 ≤ M) : sampleS M ≤ sampleRegion M := by
  have := sampleRegion_pos hM
  unfold sampleS
  omega

lemma margin_add_region_le (M : ℕ) : sampleMargin M + sampleRegion M ≤ M := by
  have := two_mul_sampleMargin_le M
  unfold sampleRegion
  omega

lemma sampleOffset_bounds {M : ℕ} (hM : 1 ≤ M) {k : ℕ} (hk : k < sampleS M) :
    0 ≤ ((k : ℚ) + 1 / 2) * ((sampleRegion M : ℚ) / sampleS M) ∧
      ((k : ℚ) + 1 / 2) * ((sampleRegion M : ℚ) / sampleS M) <
        (sampleRegion M : ℚ) := by
  have hsQ : (0 : ℚ) < (sampleS M : ℚ) := by exact_mod_cast sampleS_pos M
  have hrQ : (1 : ℚ) ≤ (sampleRegion M : ℚ) := by exact_mod_cast sampleRegion_pos hM
  have hks : (k : ℚ) + 1 ≤ (sampleS M : ℚ) := by exact_mod_cast hk
  have hdiv : (sampleS M : ℚ) * ((sampleRegion M : ℚ) / (sampleS M : ℚ)) =
      (sampleRegion M : ℚ) := mul_div_cancel₀ _ (ne_of_gt hsQ)
  have hqpos : (0 : ℚ) < (sampleRegion M : ℚ) / (sampleS M : ℚ) :=
    div_pos (by linarith) hsQ
  constructor
  · positivity
  · nlinarith [hdiv, hqpos, hks, hsQ]

lemma sampleCoord_clamped (dim : ℕ) (tile : ℤ) (M k : ℕ) (hdim : 1 ≤ dim) :
    0 ≤ sampleCoord dim tile M k ∧ sampleCoord dim tile M k ≤ (dim : ℤ) - 1 := by
  unfold sampleCoord
  omega

lemma sampleCoord_mem_tile (dim M tile k : ℕ) (hM : 1 ≤ M) (hk : k < sampleS M)
    (htile : (tile + 1) * M ≤ dim) :
    (tile * M : ℤ) ≤ sampleCoord dim (tile : ℤ) M k ∧
      sampleCoord dim (tile : ℤ) M k < (tile * M : ℤ) + M := by
  obtain ⟨hoff0, hoffr⟩ := sampleOffset_bounds hM hk
  have hfl0 : 0 ≤ ⌊((k : ℚ) + 1 / 2) * ((sampleRegion M : ℚ) / sampleS M)⌋ :=
    Int.le_floor.2 (by exact_mod_cast hoff0)
  have hflr : ⌊((k : ℚ) + 1 / 2) * ((sampleRegion M : ℚ) / sampleS M)⌋ <
      (sampleRegion M : ℤ) := Int.floor_lt.2 (by exact_mod_cast hoffr)
  have hmr := margin_add_region_le M
  have hcast : (((tile : ℤ) * M + sampleMargin M : ℤ) : ℚ) +
      ((k : ℚ) + 1 / 2) * ((sampleRegion M : ℚ) / sampleS M) =
      (((tile * M + sampleMargin M : ℕ) : ℤ) : ℚ) +
      ((k : ℚ) + 1 / 2) * ((sampleRegion M : ℚ) / sampleS M) := by
    push_cast
    ring
  unfold sampleCoord
  rw [hcast, Int.floor_int_add]
  have htile' : (tile + 1) * M = tile * M + M := by ring
  omega

lemma sampleIdx_range {imgW imgH : ℕ} {px py : ℤ} (hW : 1 ≤ imgW) (hH : 1 ≤ imgH)
    (hpx0 : 0 ≤ px) (hpx : px ≤ (imgW : ℤ) - 1) (hpy0 : 0 ≤ py)
    (hpy : py ≤ (imgH : ℤ) - 1) {ch : ℕ} (hch : ch ≤ 2) :
    0 ≤ (py * imgW + px) * 4 + ch ∧
      ((py * imgW + px) * 4 + ch).toNat < 4 * imgW * imgH := by
  have h1 : py * (imgW : ℤ) ≤ ((imgH : ℤ) - 1) * imgW :=
    mul_le_mul_of_nonneg_right hpy (by positivity)
  have h0 : 0 ≤ py * (imgW : ℤ) := mul_nonneg hpy0 (by positivity)
  have key : (py * imgW + px) * 4 + (ch : ℤ) ≤ 4 * ((imgW : ℤ) * imgH) - 1 := by
    nlinarith [h1, h0, hpx, hpx0]
  have hcast : ((4 * imgW * imgH : ℕ) : ℤ) = 4 * ((imgW : ℤ) * imgH) := by
    push_cast
    ring
  omega

lemma listData_le (l : List ℕ) (hbytes : ∀ u ∈ l, u ≤ 255) (i : ℤ) :
    listData l i ≤ 255 := by
  unfold listData
  split_ifs with h
  · omega
  · rcases lt_or_ge i.toNat l.length with hlt | hge
    · rw [List.getD_eq_getElem l 0 hlt]
      exact hbytes _ (List.getElem_mem hlt)
    · rw [List.getD_eq_default]
      · omega
      · exact hge

lemma avg_bounds (s : ℕ) (hs : 1 ≤ s) (f : ℕ → ℕ → ℕ)
    (hf : ∀ a b, f a b ≤ 255) :
    0 ≤ (∑ yy ∈ Finset.range s, ∑ xx ∈ Finset.range s, (f xx yy : ℚ)) /
        ((s * s : ℕ) : ℚ) ∧
      (∑ yy ∈ Finset.range s, ∑ xx ∈ Finset.range s, (f xx yy : ℚ)) /
        ((s * s : ℕ) : ℚ) ≤ 255 := by
  have hc : (0 : ℚ) < ((s * s : ℕ) : ℚ) := by
    exact_mod_cast Nat.mul_pos hs hs
  constructor
  · apply div_nonneg _ (le_of_lt hc)
    apply Finset.sum_nonneg
    intro yy _
    apply Finset.sum_nonneg
    intro xx _
    positivity
  · rw [div_le_iff hc]
    calc (∑ yy ∈ Finset.range s, ∑ xx ∈ Finset.range s, (f xx yy : ℚ))
        ≤ ∑ _yy ∈ Finset.range s, ∑ _xx ∈ Finset.range s, (255 : ℚ) := by
          apply Finset.sum_le_sum
          intro yy _
          apply Finset.sum_le_sum
          intro xx _
          exact_mod_cast hf xx yy
      _ = 255 * ((s * s : ℕ) : ℚ) := by
          simp [Finset.sum_const, Finset.card_range]
          push_cast
          ring

/-- C10: for every pixel buffer (a byte list of size 4·imgW·imgH with
imgW, imgH ≥ 1), every tile position — including ones outside the image —
and every M ≥ 1: both sample coordinates are clamped into
[0, imgW−1] × [0, imgH−1], every flat read index is in range, the sample
count s·s is at least 1, and each returned channel average lies in [0, 255]. -/
theorem claim10_sampler_bounds (l : List ℕ) (imgW imgH : ℕ) (tileX tileY : ℤ)
    (M : ℕ) (hW : 1 ≤ imgW) (hH : 1 ≤ imgH) (hM : 1 ≤ M)
    (hlen : l.length = 4 * imgW * imgH) (hbytes : ∀ u ∈ l, u ≤ 255) :
    (∀ xx yy, xx < sampleS M → yy < sampleS M →
      (0 ≤ sampleCoord imgW tileX M xx ∧
        sampleCoord imgW tileX M xx ≤ (imgW : ℤ) - 1) ∧
      (0 ≤ sampleCoord imgH tileY M yy ∧
        sampleCoord imgH tileY M yy ≤ (imgH : ℤ) - 1) ∧
      (∀ ch : ℕ, ch ≤ 2 →
        0 ≤ (sampleCoord imgH tileY M yy * imgW + sampleCoord imgW tileX M xx) * 4
            + ch ∧
        ((sampleCoord imgH tileY M yy * imgW + sampleCoord imgW tileX M xx) * 4
            + ch).toNat < l.length)) ∧
    1 ≤ sampleS M * sampleS M ∧
    (0 ≤ (sampleTileColor (listData l) imgW imgH tileX tileY M).1 ∧
      (sampleTileColor (listData l) imgW imgH tileX tileY M).1 ≤ 255) ∧
    (0 ≤ (sampleTileColor (listData l) imgW imgH tileX tileY M).2.1 ∧
      (sampleTileColor (listData l) imgW imgH tileX tileY M).2.1 ≤ 255) ∧
    (0 ≤ (sampleTileColor (listData l) imgW imgH tileX tileY M).2.2 ∧
      (sampleTileColor (listData l) imgW imgH tileX tileY M).2.2 ≤ 255) := by
  have hs := sampleS_pos M
  refine ⟨?_, Nat.mul_pos hs hs, ?_, ?_, ?_⟩
  · intro xx yy _ _
    obtain ⟨hx0, hx1⟩ := sampleCoord_clamped imgW tileX M xx hW
    obtain ⟨hy0, hy1⟩ := sampleCoord_clamped imgH tileY M yy hH
    refine ⟨⟨hx0, hx1⟩, ⟨hy0, hy1⟩, fun ch hch => ?_⟩
    rw [hlen]
    exact @sampleIdx_range imgW imgH _ _ hW hH hx0 hx1 hy0 hy1 ch hch
  all_goals
    simp only [sampleTileColor]
    exact avg_bounds (sampleS M) hs _ (fun a b => listData_le l hbytes _)

/-- Witness for C10: a 1×1 all-zero image, tile position (−3, 7) (outside the
image), M = 2. -/
theorem claim10_witness :
    (∀ xx yy, xx < sampleS 2 → yy < sampleS 2 →
      (0 ≤ sampleCoord 1 (-3) 2 xx ∧ sampleCoord 1 (-3) 2 xx ≤ (1 : ℤ) - 1) ∧
      (0 ≤ sampleCoord 1 7 2 yy ∧ sampleCoord 1 7 2 yy ≤ (1 : ℤ) - 1) ∧
      (∀ ch : ℕ, ch ≤ 2 →
        0 ≤ (sampleCoord 1 7 2 yy * 1 + sampleCoord 1 (-3) 2 xx) * 4 + ch ∧
        ((sampleCoord 1 7 2 yy * 1 + sampleCoord 1 (-3) 2 xx) * 4 + ch).toNat <
          ([0, 0, 0, 0] : List ℕ).length)) ∧
    1 ≤ sampleS 2 * sampleS 2 ∧
    (0 ≤ (sampleTileColor (listData [0, 0, 0, 0]) 1 1 (-3) 7 2).1 ∧
      (sampleTileColor (listData [0, 0, 0, 0]) 1 1 (-3) 7 2).1 ≤ 255) ∧
    (0 ≤ (sampleTileColor (listData [0, 0, 0, 0]) 1 1 (-3) 7 2).2.1 ∧
      (sampleTileColor (listData [0, 0, 0, 0]) 1 1 (-3) 7 2).2.1 ≤ 255) ∧
    (0 ≤ (sampleTileColor (listData [0, 0, 0, 0]) 1 1 (-3) 7 2).2.2 ∧
      (sampleTileColor (listData [0, 0, 0, 0]) 1 1 (-3) 7 2).2.2 ≤ 255) :=
  claim10_sampler_bounds [0, 0, 0, 0] 1 1 (-3) 7 2 (by norm_num) (by norm_num)
    (by norm_num) (by norm_num) (by
      intro u hu
      simp at hu
      omega)

/-! ### Canvas characterization of the identity pattern -/

lemma div_eq_iff_of_pos {M : ℕ} (hM : 0 < M) (x q : ℕ) :
    x / M = q ↔ q * M ≤ x ∧ x < q * M + M := by
  constructor
  · rintro rfl
    have h1 := Nat.div_add_mod x M
    have h2 := Nat.mod_lt x hM
    have e : x / M * M = M * (x / M) := Nat.mul_comm _ _
    omega
  · rintro ⟨h1, h2⟩
    refine Nat.div_eq_of_lt_le h1 ?_
    have e : (q + 1) * M = q * M + M := by ring
    omega

lemma tileIndexAt_tall (N M : ℕ) (hN : 0 < N) (r g b ix iy : ℕ)
    (hg : g < N) (hix : ix / M = r) (hiy : iy / M = g + b * N) :
    tileIndexAt N M .tall ix iy = rgbToTileIndex r g b N := by
  simp only [tileIndexAt, rgbToTileIndex]
  rw [if_neg (by decide), hix, hiy, Nat.add_mul_mod_self_right,
    Nat.mod_eq_of_lt hg, Nat.add_mul_div_right _ _ hN, Nat.div_eq_of_lt hg,
    Nat.zero_add]

lemma tileIndexAt_wide (N M : ℕ) (hN : 0 < N) (r g b ix iy : ℕ)
    (hr : r < N) (hix : ix / M = r + g * N) (hiy : iy / M = b) :
    tileIndexAt N M .wide ix iy = rgbToTileIndex r g b N := by
  simp only [tileIndexAt, rgbToTileIndex]
  rw [if_pos trivial, hix, hiy, Nat.add_mul_mod_self_right,
    Nat.mod_eq_of_lt hr, Nat.add_mul_div_right _ _ hN, Nat.div_eq_of_lt hr,
    Nat.zero_add]

lemma tileIndexAt_spec (N M : ℕ) (layout : Layout) (x y : ℕ) (hN : 0 < N)
    (hM : 0 < M) (hx : x < (computeDims N M layout).width)
    (hy : y < (computeDims N M layout).height) :
    tileIndexAt N M layout x y < N * N * N ∧
      tileCoords (tileIndexAt N M layout x y) N layout = (x / M, y / M) := by
  cases layout
  · have hw : (computeDims N M .tall).width = N * M := by simp [computeDims]
    have hh : (computeDims N M .tall).height = N * N * M := by simp [computeDims]
    rw [hw] at hx
    rw [hh] at hy
    have htx : x / M < N := by
      rw [Nat.div_lt_iff_lt_mul hM]
      exact hx
    have hty : y / M < N * N := by
      rw [Nat.div_lt_iff_lt_mul hM]
      exact hy
    have h1 : y / M % N < N := Nat.mod_lt _ hN
    have h2 : y / M / N < N := by
      rw [Nat.div_lt_iff_lt_mul hN]
      exact hty
    have hform : tileIndexAt N M Layout.tall x y =
        rgbToTileIndex (x / M) (y / M % N) (y / M / N) N := by
      simp only [tileIndexAt, rgbToTileIndex]
      rw [if_neg (by decide)]
    refine ⟨?_, ?_⟩
    · rw [hform]
      exact rgbToTileIndex_lt htx h1 h2
    · rw [hform]
      simp only [tileCoords, decode_encode htx h1 h2]
      rw [if_neg (by decide)]
      rw [Prod.mk.injEq]
      exact ⟨rfl, Nat.mod_add_div' (y / M) N⟩
  · have hw : (computeDims N M .wide).width = N * N * M := by simp [computeDims]
    have hh : (computeDims N M .wide).height = N * M := by simp [computeDims]
    rw [hw] at hx
    rw [hh] at hy
    have htx : x / M < N * N := by
      rw [Nat.div_lt_iff_lt_mul hM]
      exact hx
    have hty : y / M < N := by
      rw [Nat.div_lt_iff_lt_mul hM]
      exact hy
    have h1 : x / M % N < N := Nat.mod_lt _ hN
    have h2 : x / M / N < N := by
      rw [Nat.div_lt_iff_lt_mul hN]
      exact htx
    have hform : tileIndexAt N M Layout.wide x y =
        rgbToTileIndex (x / M % N) (x / M / N) (y / M) N := by
      simp only [tileIndexAt, rgbToTileIndex]
      rw [if_pos trivial]
    refine ⟨?_, ?_⟩
    · rw [hform]
      exact rgbToTileIndex_lt h1 h2 hty
    · rw [hform]
      simp only [tileCoords, decode_encode h1 h2 hty]
      rw [if_pos trivial]
      rw [Prod.mk.injEq]
      exact ⟨Nat.mod_add_div' (x / M) N, rfl⟩

lemma eq_tileIndexAt_of_coords (N M : ℕ) (layout : Layout) (x y t : ℕ)
    (hN : 0 < N) (ht : t < N * N * N)
    (hc : tileCoords t N layout = (x / M, y / M)) :
    t = tileIndexAt N M layout x y := by
  rcases hd : tileIndexToRGB t N with ⟨r, gg, bb⟩
  have hlt := tileIndexToRGB_lt hN ht
  rw [hd] at hlt
  obtain ⟨hr, hg, hb⟩ := hlt
  have henc := @encode_decode N t
  rw [hd] at henc
  cases layout
  · simp only [tileCoords, hd] at hc
    rw [if_neg (by decide), Prod.mk.injEq] at hc
    obtain ⟨hc1, hc2⟩ := hc
    rw [tileIndexAt_tall N M hN r gg bb x y hg hc1.symm hc2.symm]
    exact henc.symm
  · simp only [tileCoords, hd] at hc
    rw [if_pos trivial, Prod.mk.injEq] at hc
    obtain ⟨hc1, hc2⟩ := hc
    rw [tileIndexAt_wide N M hN r gg bb x y hr hc1.symm hc2.symm]
    exact henc.symm

lemma drawTile_hit (N M : ℕ) (layout : Layout) (c : Canvas) (x y : ℕ)
    (hM : 0 < M)
    (hcoords : tileCoords (tileIndexAt N M layout x y) N layout = (x / M, y / M)) :
    drawTile N M layout c (tileIndexAt N M layout x y) x y =
      quantColor (tileIndexAt N M layout x y) N := by
  simp only [drawTile, fillRect, hcoords]
  rw [if_pos]
  have h1 := (div_eq_iff_of_pos hM x (x / M)).1 rfl
  have h2 := (div_eq_iff_of_pos hM y (y / M)).1 rfl
  exact ⟨h1.1, h1.2, h2.1, h2.2⟩

lemma drawTile_miss (N M : ℕ) (layout : Layout) (c : Canvas) (x y t : ℕ)
    (hN : 0 < N) (hM : 0 < M) (ht : t < N * N * N)
    (hne : t ≠ tileIndexAt N M layout x y) :
    drawTile N M layout c t x y = c x y := by
  simp only [drawTile, fillRect]
  rw [if_neg]
  rintro ⟨h1, h2, h3, h4⟩
  have hx := (div_eq_iff_of_pos hM x _).2 ⟨h1, h2⟩
  have hy := (div_eq_iff_of_pos hM y _).2 ⟨h3, h4⟩
  refine hne (eq_tileIndexAt_of_coords N M layout x y t hN ht ?_)
  rw [hx, hy]

lemma foldl_drawTile_eq (N M : ℕ) (layout : Layout) (x y : ℕ) (hN : 0 < N)
    (hM : 0 < M) (hx : x < (computeDims N M layout).width)
    (hy : y < (computeDims N M layout).height) :
    ∀ L : List ℕ, (∀ t ∈ L, t < N * N * N) → ∀ c : Canvas,
      (L.foldl (drawTile N M layout) c) x y =
        if tileIndexAt N M layout x y ∈ L
        then quantColor (tileIndexAt N M layout x y) N else c x y := by
  intro L
  induction L with
  | nil => intro _ c; simp
  | cons a L ih =>
    intro hL c
    rw [List.foldl_cons, ih (fun t ht => hL t (List.mem_cons_of_mem a ht))]
    by_cases hmem : tileIndexAt N M layout x y ∈ L
    · rw [if_pos hmem, if_pos (List.mem_cons_of_mem a hmem)]
    · rw [if_neg hmem]
      by_cases ha : a = tileIndexAt N M layout x y
      · subst ha
        rw [if_pos (List.mem_cons_self _ _)]
        exact drawTile_hit N M layout c x y hM
          (tileIndexAt_spec N M layout x y hN hM hx hy).2
      · rw [if_neg (by
          intro hmem2
          rcases List.mem_cons.1 hmem2 with h | h
          · exact ha h.symm
          · exact hmem h)]
        exact drawTile_miss N M layout c x y a hN hM
          (hL a (List.mem_cons_self a L)) ha

lemma drawTiles_eq (N M : ℕ) (layout : Layout) (x y : ℕ) (hN : 0 < N)
    (hM : 0 < M) (hx : x < (computeDims N M layout).width)
    (hy : y < (computeDims N M layout).height) :
    drawTiles N M layout x y = quantColor (tileIndexAt N M layout x y) N := by
  unfold drawTiles
  rw [foldl_drawTile_eq N M layout x y hN hM hx hy (List.range (N * N * N))
    (fun t ht => List.mem_range.1 ht) _]
  rw [if_pos (List.mem_range.2 (tileIndexAt_spec N M layout x y hN hM hx hy).1)]

lemma canvasData_at (c : Canvas) (W a b : ℕ) (hb : b < W) :
    canvasData c W (((a * W + b) * 4 : ℕ) : ℤ) = (c b a).1 ∧
      canvasData c W (((a * W + b) * 4 + 1 : ℕ) : ℤ) = (c b a).2.1 ∧
      canvasData c W (((a * W + b) * 4 + 2 : ℕ) : ℤ) = (c b a).2.2 := by
  have hW : 0 < W := by omega
  have hp1 : (a * W + b) % W = b := by
    rw [show a * W + b = b + a * W from by ring, Nat.add_mul_mod_self_right,
      Nat.mod_eq_of_lt hb]
  have hp2 : (a * W + b) / W = a := by
    rw [show a * W + b = b + a * W from by ring, Nat.add_mul_div_right _ _ hW,
      Nat.div_eq_of_lt hb, Nat.zero_add]
  refine ⟨?_, ?_, ?_⟩
  · simp only [canvasData]
    rw [if_neg (by omega), Int.toNat_natCast]
    rw [show (a * W + b) * 4 % 4 = 0 from by omega,
      show (a * W + b) * 4 / 4 = a * W + b from by omega, hp1, hp2]
  · simp only [canvasData]
    rw [if_neg (by omega), Int.toNat_natCast]
    rw [show ((a * W + b) * 4 + 1) % 4 = 1 from by omega,
      show ((a * W + b) * 4 + 1) / 4 = a * W + b from by omega, hp1, hp2]
  · simp only [canvasData]
    rw [if_neg (by omega), Int.toNat_natCast]
    rw [show ((a * W + b) * 4 + 2) % 4 = 2 from by omega,
      show ((a * W + b) * 4 + 2) / 4 = a * W + b from by omega, hp1, hp2]

/-! ### Sampling the untransformed identity pattern -/

lemma const_avg (s : ℕ) (hs : 1 ≤ s) (C : ℚ) :
    (∑ _yy ∈ Finset.range s, ∑ _xx ∈ Finset.range s, C) / ((s * s : ℕ) : ℚ) = C := by
  have hs0 : (0 : ℚ) < (s : ℚ) := by exact_mod_cast hs
  simp only [Finset.sum_const, Finset.card_range, nsmul_eq_mul]
  push_cast
  field_simp
  ring

lemma avg_of_const (s : ℕ) (hs : 1 ≤ s) (f : ℕ → ℕ → ℕ) (C : ℕ)
    (hf : ∀ a b, a < s → b < s → f a b = C) :
    (∑ yy ∈ Finset.range s, ∑ xx ∈ Finset.range s, (f xx yy : ℚ)) /
      ((s * s : ℕ) : ℚ) = C := by
  have h1 : (∑ yy ∈ Finset.range s, ∑ xx ∈ Finset.range s, (f xx yy : ℚ)) =
      ∑ _yy ∈ Finset.range s, ∑ _xx ∈ Finset.range s, (C : ℚ) :=
    Finset.sum_congr rfl fun yy hyy => Finset.sum_congr rfl fun xx hxx => by
      rw [hf xx yy (Finset.mem_range.1 hxx) (Finset.mem_range.1 hyy)]
  rw [h1, const_avg s hs]

lemma sampleTileColor_identity (N M : ℕ) (layout : Layout) (r g b xT yT : ℕ)
    (hN : 2 ≤ N) (hM : 1 ≤ M) (hr : r < N) (hg : g < N) (hb : b < N)
    (hxW : (xT + 1) * M ≤ (computeDims N M layout).width)
    (hyH : (yT + 1) * M ≤ (computeDims N M layout).height)
    (hcell : ∀ ix iy : ℕ, xT * M ≤ ix → ix < xT * M + M → yT * M ≤ iy →
      iy < yT * M + M → tileIndexAt N M layout ix iy = rgbToTileIndex r g b N) :
    sampleTileColor
        (canvasData (drawTiles N M layout) (computeDims N M layout).width)
        (computeDims N M layout).width (computeDims N M layout).height
        (xT : ℤ) (yT : ℤ) M =
      ((v r N : ℚ), (v g N : ℚ), (v b N : ℚ)) := by
  have hN0 : 0 < N := by omega
  have hM0 : 0 < M := by omega
  have hquant : quantColor (rgbToTileIndex r g b N) N = (v r N, v g N, v b N) := by
    unfold quantColor
    rw [decode_encode hr hg hb]
  have hread : ∀ xx yy, xx < sampleS M → yy < sampleS M →
      canvasData (drawTiles N M layout) (computeDims N M layout).width
        ((sampleCoord (computeDims N M layout).height (yT : ℤ) M yy *
            (computeDims N M layout).width +
          sampleCoord (computeDims N M layout).width (xT : ℤ) M xx) * 4) = v r N ∧
      canvasData (drawTiles N M layout) (computeDims N M layout).width
        ((sampleCoord (computeDims N M layout).height (yT : ℤ) M yy *
            (computeDims N M layout).width +
          sampleCoord (computeDims N M layout).width (xT : ℤ) M xx) * 4 + 1) =
        v g N ∧
      canvasData (drawTiles N M layout) (computeDims N M layout).width
        ((sampleCoord (computeDims N M layout).height (yT : ℤ) M yy *
            (computeDims N M layout).width +
          sampleCoord (computeDims N M layout).width (xT : ℤ) M xx) * 4 + 2) =
        v b N := by
    intro xx yy hxx hyy
    obtain ⟨hpx1, hpx2⟩ :=
      sampleCoord_mem_tile (computeDims N M layout).width M xT xx hM hxx hxW
    obtain ⟨hpy1, hpy2⟩ :=
      sampleCoord_mem_tile (computeDims N M layout).height M yT yy hM hyy hyH
    set px := sampleCoord (computeDims N M layout).width (xT : ℤ) M xx with hpxdef
    set py := sampleCoord (computeDims N M layout).height (yT : ℤ) M yy with hpydef
    have hpx0 : 0 ≤ px := le_trans (by positivity) hpx1
    have hpy0 : 0 ≤ py := le_trans (by positivity) hpy1
    have hpxe : px = (px.toNat : ℤ) := (Int.toNat_of_nonneg hpx0).symm
    have hpye : py = (py.toNat : ℤ) := (Int.toNat_of_nonneg hpy0).symm
    have hcx : ((xT * M : ℕ) : ℤ) = (xT : ℤ) * M := by push_cast; ring
    have hcy : ((yT * M : ℕ) : ℤ) = (yT : ℤ) * M := by push_cast; ring
    have hb1 : xT * M ≤ px.toNat := by omega
    have hb2 : px.toNat < xT * M + M := by omega
    have hb3 : yT * M ≤ py.toNat := by omega
    have hb4 : py.toNat < yT * M + M := by omega
    have hxw : px.toNat < (computeDims N M layout).width := by
      have he : (xT + 1) * M = xT * M + M := by ring
      omega
    have hyh : py.toNat < (computeDims N M layout).height := by
      have he : (yT + 1) * M = yT * M + M := by ring
      omega
    have htile := hcell px.toNat py.toNat hb1 hb2 hb3 hb4
    have hdraw := drawTiles_eq N M layout px.toNat py.toNat hN0 hM0 hxw hyh
    obtain ⟨hc0, hc1, hc2⟩ := canvasData_at (drawTiles N M layout)
      (computeDims N M layout).width py.toNat px.toNat hxw
    have hbase : (py * (computeDims N M layout).width + px) * 4 =
        (((py.toNat * (computeDims N M layout).width + px.toNat) * 4 : ℕ) : ℤ) := by
      conv_lhs => rw [hpxe, hpye]
      push_cast
      ring
    have hbase1 : (py * (computeDims N M layout).width + px) * 4 + 1 =
        (((py.toNat * (computeDims N M layout).width + px.toNat) * 4 + 1 : ℕ) : ℤ) := by
      rw [hbase]
      push_cast
      ring
    have hbase2 : (py * (computeDims N M layout).width + px) * 4 + 2 =
        (((py.toNat * (computeDims N M layout).width + px.toNat) * 4 + 2 : ℕ) : ℤ) := by
      rw [hbase]
      push_cast
      ring
    refine ⟨?_, ?_, ?_⟩
    · rw [hbase, hc0, hdraw, htile, hquant]
    · rw [hbase1, hc1, hdraw, htile, hquant]
    · rw [hbase2, hc2, hdraw, htile, hquant]
  simp only [sampleTileColor, Prod.mk.injEq]
  refine ⟨?_, ?_, ?_⟩
  · exact avg_of_const (sampleS M) (sampleS_pos M) _ _
      (fun xx yy hxx hyy => (hread xx yy hxx hyy).1)
  · exact avg_of_const (sampleS M) (sampleS_pos M) _ _
      (fun xx yy hxx hyy => (hread xx yy hxx hyy).2.1)
  · exact avg_of_const (sampleS M) (sampleS_pos M) _ _
      (fun xx yy hxx hyy => (hread xx yy hxx hyy).2.2)

lemma cubeEntry_identity (N M : ℕ) (layout : Layout) (r g b : ℕ)
    (hN : 2 ≤ N) (hM : 1 ≤ M) (hr : r < N) (hg : g < N) (hb : b < N) :
    cubeEntry (canvasData (drawTiles N M layout) (computeDims N M layout).width)
      (computeDims N M layout).width (computeDims N M layout).height M N layout
      r g b =
      ((v r N : ℚ) / 255, (v g N : ℚ) / 255, (v b N : ℚ) / 255) := by
  have hN0 : 0 < N := by omega
  have hM0 : 0 < M := by omega
  have hcb : ∀ i : ℕ, i < N → clampByte ((v i N : ℕ) : ℚ) 0 = v i N :=
    fun i hi => clampRound_natCast (v_le_255 hi)
  cases layout
  · have hw : (computeDims N M .tall).width = N * M := by simp [computeDims]
    have hh : (computeDims N M .tall).height = N * N * M := by simp [computeDims]
    have hxW : (r + 1) * M ≤ (computeDims N M .tall).width := by
      rw [hw]
      exact Nat.mul_le_mul_right M (by omega)
    have hyH : (g + b * N + 1) * M ≤ (computeDims N M .tall).height := by
      rw [hh]
      refine Nat.mul_le_mul_right M ?_
      nlinarith
    have hcell : ∀ ix iy : ℕ, r * M ≤ ix → ix < r * M + M →
        (g + b * N) * M ≤ iy → iy < (g + b * N) * M + M →
        tileIndexAt N M .tall ix iy = rgbToTileIndex r g b N :=
      fun ix iy h1 h2 h3 h4 =>
        tileIndexAt_tall N M hN0 r g b ix iy hg
          ((div_eq_iff_of_pos hM0 ix r).2 ⟨h1, h2⟩)
          ((div_eq_iff_of_pos hM0 iy (g + b * N)).2 ⟨h3, h4⟩)
    have hsam := sampleTileColor_identity N M .tall r g b r (g + b * N) hN hM
      hr hg hb hxW hyH hcell
    simp only [cubeEntry]
    rw [show (if Layout.tall = Layout.wide then r + g * N else r) = r from rfl,
      show (if Layout.tall = Layout.wide then b else g + b * N) = g + b * N from rfl,
      hsam]
    show (((clampByte ((v r N : ℕ) : ℚ) 0 : ℕ) : ℚ) / 255,
      ((clampByte ((v g N : ℕ) : ℚ) 0 : ℕ) : ℚ) / 255,
      ((clampByte ((v b N : ℕ) : ℚ) 0 : ℕ) : ℚ) / 255) = _
    rw [hcb r hr, hcb g hg, hcb b hb]
  · have hw : (computeDims N M .wide).width = N * N * M := by simp [computeDims]
    have hh : (computeDims N M .wide).height = N * M := by simp [computeDims]
    have hxW : (r + g * N + 1) * M ≤ (computeDims N M .wide).width := by
      rw [hw]
      refine Nat.mul_le_mul_right M ?_
      nlinarith
    have hyH : (b + 1) * M ≤ (computeDims N M .wide).height := by
      rw [hh]
      exact Nat.mul_le_mul_right M (by omega)
    have hcell : ∀ ix iy : ℕ, (r + g * N) * M ≤ ix → ix < (r + g * N) * M + M →
        b * M ≤ iy → iy < b * M + M →
        tileIndexAt N M .wide ix iy = rgbToTileIndex r g b N :=
      fun ix iy h1 h2 h3 h4 =>
        tileIndexAt_wide N M hN0 r g b ix iy hr
          ((div_eq_iff_of_pos hM0 ix (r + g * N)).2 ⟨h1, h2⟩)
          ((div_eq_iff_of_pos hM0 iy b).2 ⟨h3, h4⟩)
    have hsam := sampleTileColor_identity N M .wide r g b (r + g * N) b hN hM
      hr hg hb hxW hyH hcell
    simp only [cubeEntry]
    rw [if_pos trivial, if_pos trivial, hsam]
    show (((clampByte ((v r N : ℕ) : ℚ) 0 : ℕ) : ℚ) / 255,
      ((clampByte ((v g N : ℕ) : ℚ) 0 : ℕ) : ℚ) / 255,
      ((clampByte ((v b N : ℕ) : ℚ) 0 : ℕ) : ℚ) / 255) = _
    rw [hcb r hr, hcb g hg, hcb b hb]

/-! ### The .cube line list in export order -/

lemma flatMap_congr_mem {α β : Type} {l : List α} {f g : α → List β}
    (h : ∀ a ∈ l, f a = g a) : l.flatMap f = l.flatMap g := by
  induction l with
  | nil => rfl
  | cons a l ih =>
    rw [List.flatMap_cons, List.flatMap_cons, h a (List.mem_cons_self _ _),
      ih fun x hx => h x (List.mem_cons_of_mem a hx)]

lemma range_flatMap_map {α : Type} (a b : ℕ) (f : ℕ → α) :
    ((List.range a).flatMap fun i => (List.range b).map fun j => f (i * b + j)) =
      (List.range (a * b)).map f := by
  induction a with
  | zero => simp
  | succ a ih =>
    rw [List.range_succ, List.flatMap_append, ih, List.flatMap_singleton]
    rw [show (a + 1) * b = a * b + b from by ring, List.range_add, List.map_append,
      List.map_map]
    congr 1

lemma cubeLines_eq_map (data : ℤ → ℕ) (imgW imgH N M : ℕ) (layout : Layout) :
    cubeLines data imgW imgH N M layout =
      (List.range (N * N * N)).map fun t =>
        cubeEntry data imgW imgH M N layout (tileIndexToRGB t N).1
          (tileIndexToRGB t N).2.1 (tileIndexToRGB t N).2.2 := by
  unfold cubeLines
  by_cases hN : N = 0
  · subst hN
    simp
  have hN0 : 0 < N := Nat.pos_of_ne_zero hN
  have hinner : ∀ blue : ℕ,
      ((List.range N).flatMap fun g => (List.range N).map fun r =>
        cubeEntry data imgW imgH M N layout r g blue) =
      (List.range (N * N)).map fun k =>
        cubeEntry data imgW imgH M N layout (k % N) (k / N) blue := by
    intro blue
    rw [← range_flatMap_map N N fun k =>
      cubeEntry data imgW imgH M N layout (k % N) (k / N) blue]
    apply flatMap_congr_mem
    intro g hg
    apply List.map_congr_left
    intro r hrr
    have hrN := List.mem_range.1 hrr
    have e1 : (g * N + r) % N = r := by
      rw [show g * N + r = r + g * N from by ring, Nat.add_mul_mod_self_right,
        Nat.mod_eq_of_lt hrN]
    have e2 : (g * N + r) / N = g := by
      rw [show g * N + r = r + g * N from by ring, Nat.add_mul_div_right _ _ hN0,
        Nat.div_eq_of_lt hrN, Nat.zero_add]
    rw [e1, e2]
  rw [flatMap_congr_mem fun blue _ => hinner blue]
  rw [show N * N * N = N * (N * N) from by ring]
  rw [← range_flatMap_map N (N * N) fun t =>
    cubeEntry data imgW imgH M N layout (tileIndexToRGB t N).1
      (tileIndexToRGB t N).2.1 (tileIndexToRGB t N).2.2]
  apply flatMap_congr_mem
  intro blue hblue
  apply List.map_congr_left
  intro k hk
  have hkN := List.mem_range.1 hk
  have hk1 : k / N < N := by
    rw [Nat.div_lt_iff_lt_mul hN0]
    exact hkN
  simp only [tileIndexToRGB]
  have c1 : (blue * (N * N) + k) % N = k % N := by
    rw [show blue * (N * N) + k = k + blue * N * N from by ring,
      Nat.add_mul_mod_self_right]
  have c2 : (blue * (N * N) + k) / N % N = k / N := by
    rw [show blue * (N * N) + k = k + blue * N * N from by ring,
      Nat.add_mul_div_right _ _ hN0, Nat.add_mul_mod_self_right,
      Nat.mod_eq_of_lt hk1]
  have c3 : (blue * (N * N) + k) / (N * N) = blue := by
    rw [show blue * (N * N) + k = k + blue * (N * N) from by ring,
      Nat.add_mul_div_right _ _ (Nat.mul_pos hN0 hN0), Nat.div_eq_of_lt hkN,
      Nat.zero_add]
  rw [c1, c2, c3]

lemma v_near (N i : ℕ) (hN : 2 ≤ N) :
    |(v i N : ℚ) / 255 - (i : ℚ) / ((N : ℚ) - 1)| ≤ 1 / 255 := by
  have hN1 : ¬ N ≤ 1 := by omega
  have hpos : (0 : ℚ) < (N : ℚ) - 1 := by
    have : (2 : ℚ) ≤ (N : ℚ) := by exact_mod_cast hN
    linarith
  simp only [v, hN1, if_false]
  set q : ℚ := (i : ℚ) * 255 / ((N : ℚ) - 1) with hq
  have hq0 : (0 : ℚ) ≤ q := by positivity
  have h1 : 0 ≤ jsRound q := by
    unfold jsRound
    refine Int.le_floor.2 ?_
    push_cast
    linarith
  have h2 : (((jsRound q).toNat : ℕ) : ℚ) = ((jsRound q : ℤ) : ℚ) := by
    exact_mod_cast Int.toNat_of_nonneg h1
  rw [h2]
  have h3 := jsRound_abs_sub_le q
  have h4 : (i : ℚ) / ((N : ℚ) - 1) = q / 255 := by
    rw [hq]
    field_simp
    ring
  rw [h4, div_sub_div_same, abs_div]
  rw [show |(255 : ℚ)| = 255 from by norm_num]
  rw [div_le_div_iff (by norm_num) (by norm_num)]
  linarith

lemma generateCubeLut_ok (data : ℤ → ℕ) (imgW imgH N M : ℕ) (layout : Layout) :
    generateCubeLut data imgW imgH N M layout false =
      .ok (cubeLines data imgW imgH N M layout) := by
  unfold generateCubeLut cubeLines
  have h3 : ∀ (g b : ℕ) (acc : List (ℚ × ℚ × ℚ)),
      ((List.range N).foldlM (fun acc r =>
          if false then Except.error CubeError.cancelled
          else Except.ok (acc ++ [cubeEntry data imgW imgH M N layout r g b]))
        acc) =
        Except.ok (acc ++ ((List.range N).map fun r =>
          cubeEntry data imgW imgH M N layout r g b)) := by
    intro g b acc
    rw [← flatMap_singleton_eq_map]
    exact foldlM_append_ok _ _ _
  have h2 : ∀ (b : ℕ) (acc : List (ℚ × ℚ × ℚ)),
      ((List.range N).foldlM (fun acc g =>
          (List.range N).foldlM (fun acc r =>
            if false then Except.error CubeError.cancelled
            else Except.ok (acc ++ [cubeEntry data imgW imgH M N layout r g b]))
            acc)
        acc) =
        Except.ok (acc ++ ((List.range N).flatMap fun g =>
          (List.range N).map fun r => cubeEntry data imgW imgH M N layout r g b)) := by
    intro b acc
    rw [show (fun (acc : List (ℚ × ℚ × ℚ)) (g : ℕ) =>
        (List.range N).foldlM (fun acc r =>
          if false then Except.error CubeError.cancelled
          else Except.ok (acc ++ [cubeEntry data imgW imgH M N layout r g b]))
          acc) =
        fun acc g => Except.ok (acc ++ ((List.range N).map fun r =>
          cubeEntry data imgW imgH M N layout r g b)) from
      funext fun acc => funext fun g => h3 g b acc]
    exact foldlM_append_ok _ _ _
  rw [show (fun (acc : List (ℚ × ℚ × ℚ)) (b : ℕ) =>
      (List.range N).foldlM (fun acc g =>
        (List.range N).foldlM (fun acc r =>
          if false then Except.error CubeError.cancelled
          else Except.ok (acc ++ [cubeEntry data imgW imgH M N layout r g b]))
          acc)
        acc) =
      fun acc b => Except.ok (acc ++ ((List.range N).flatMap fun g =>
        (List.range N).map fun r => cubeEntry data imgW imgH M N layout r g b)) from
    funext fun acc => funext fun b => h2 b acc]
  rw [foldlM_append_ok]
  simp

/-- C2: generating the identity pattern with (N, M, layout) — which succeeds
and produces the drawn canvas — and then sampling that untransformed buffer
with the LUT sampler and the same geometry yields, for every lattice cell
(r, g, b), the `.cube` data line at position b·N² + g·N + r whose three values
lie within ±1/255 of r/(N−1), g/(N−1), b/(N−1) respectively. -/
theorem claim2_roundtrip (N M maxDim : ℕ) (layout : Layout) (r g b : ℕ)
    (hN : 2 ≤ N) (hM : 1 ≤ M) (hr : r < N) (hg : g < N) (hb : b < N)
    (hw : (computeDims N M layout).width ≤ maxDim)
    (hh : (computeDims N M layout).height ≤ maxDim) :
    generateStep1Pattern N M layout maxDim false = .ok (drawTiles N M layout) ∧
    ∃ lines e,
      generateCubeLut
        (canvasData (drawTiles N M layout) (computeDims N M layout).width)
        (computeDims N M layout).width (computeDims N M layout).height
        N M layout false = .ok lines ∧
      lines[b * (N * N) + g * N + r]? = some e ∧
      |e.1 - (r : ℚ) / ((N : ℚ) - 1)| ≤ 1 / 255 ∧
      |e.2.1 - (g : ℚ) / ((N : ℚ) - 1)| ≤ 1 / 255 ∧
      |e.2.2 - (b : ℚ) / ((N : ℚ) - 1)| ≤ 1 / 255 := by
  refine ⟨generateStep1Pattern_ok N M layout maxDim hw hh,
    cubeLines (canvasData (drawTiles N M layout) (computeDims N M layout).width)
      (computeDims N M layout).width (computeDims N M layout).height N M layout,
    ((v r N : ℚ) / 255, (v g N : ℚ) / 255, (v b N : ℚ) / 255),
    generateCubeLut_ok _ _ _ _ _ _, ?_, ?_, ?_, ?_⟩
  · rw [cubeLines_eq_map]
    have hidx : b * (N * N) + g * N + r = rgbToTileIndex r g b N := by
      simp only [rgbToTileIndex]
      ring
    rw [hidx, List.getElem?_map, List.getElem?_range (rgbToTileIndex_lt hr hg hb)]
    simp only [Option.map_some']
    rw [decode_encode hr hg hb]
    rw [cubeEntry_identity N M layout r g b hN hM hr hg hb]
  · exact v_near N r hN
  · exact v_near N g hN
  · exact v_near N b hN

/-- Witness for C2 at N = 2, M = 1, wide, maxDim = 4, cell (1, 1, 1). -/
theorem claim2_witness :
    generateStep1Pattern 2 1 .wide 4 false = .ok (drawTiles 2 1 .wide) ∧
    ∃ lines e,
      generateCubeLut
        (canvasData (drawTiles 2 1 .wide) (computeDims 2 1 .wide).width)
        (computeDims 2 1 .wide).width (computeDims 2 1 .wide).height
        2 1 .wide false = .ok lines ∧
      lines[1 * (2 * 2) + 1 * 2 + 1]? = some e ∧
      |e.1 - ((1 : ℕ) : ℚ) / (((2 : ℕ) : ℚ) - 1)| ≤ 1 / 255 ∧
      |e.2.1 - ((1 : ℕ) : ℚ) / (((2 : ℕ) : ℚ) - 1)| ≤ 1 / 255 ∧
      |e.2.2 - ((1 : ℕ) : ℚ) / (((2 : ℕ) : ℚ) - 1)| ≤ 1 / 255 :=
  claim2_roundtrip 2 1 4 .wide 1 1 1 (by norm_num) (by norm_num) (by norm_num)
    (by norm_num) (by norm_num) (by decide) (by decide)

/-- C9: for every (width, height), the wide hypothesis's exact reconstruction
check and the tall hypothesis's symmetric check never both succeed, and
consequently `detectGeometry` returns the same result when the two hypotheses
are tried in the opposite order: the wide-before-tall tie-break never decides
between two valid answers. -/
theorem claim9_hypotheses_exclusive (w h : ℕ) :
    ¬((wideHyp w h).isSome ∧ (tallHyp w h).isSome) ∧
    detectGeometry w h = detectGeometryTallFirst w h := by
  refine ⟨hyp_exclusive w h, ?_⟩
  rcases hw : wideHyp w h with _ | gw <;> rcases ht : tallHyp w h with _ | gt
  · simp [detectGeometry, detectGeometryTallFirst, hw, ht]
  · simp [detectGeometry, detectGeometryTallFirst, hw, ht]
  · simp [detectGeometry, detectGeometryTallFirst, hw, ht]
  · exact (hyp_exclusive w h ⟨by simp [hw], by simp [ht]⟩).elim

end LiveTools
